import Mathlib

/-!
Verification of the dissolve mDNS/DNS-SD responder.

This file gives a shallow embedding of the parts of the Go source that the
verified properties are about, and proves (or refutes) each property over
that embedding.  Names follow the source where Lean allows it.

Go strings are modelled as lists of characters (`Str`); Go maps are modelled
as association lists with map semantics (`mget`/`mput`/`mdel`); a Go function
that can panic is modelled as an `Option`-returning function where `none`
stands for the panic.
-/

namespace Dissolve

/-! ## Association maps (model of Go maps) -/

section AssocMap

variable {α : Type} {β : Type} [DecidableEq α]

/-- Lookup in an association map, as Go map indexing `m[k]`. -/
def mget (m : List (α × β)) (k : α) : Option β :=
  match m with
  | [] => none
  | e :: t => if e.1 = k then some e.2 else mget t k

/-- Map update `m[k] = v`.  Keeps at most one entry per key. -/
def mput (m : List (α × β)) (k : α) (v : β) : List (α × β) :=
  (k, v) :: m.filter (fun e => e.1 ≠ k)

/-- Map deletion `delete(m, k)`. -/
def mdel (m : List (α × β)) (k : α) : List (α × β) :=
  m.filter (fun e => e.1 ≠ k)

theorem mget_eq_none (m : List (α × β)) (k : α) :
    mget m k = none ↔ ∀ e ∈ m, e.1 ≠ k := by
  induction m with
  | nil => simp [mget]
  | cons e t ih =>
    by_cases h : e.1 = k <;> simp [mget, h, ih]

theorem mget_filter (m : List (α × β)) (p : α × β → Prop) [DecidablePred p]
    (k : α) (hp : ∀ e ∈ m, e.1 = k → p e) :
    mget (m.filter (fun e => p e)) k = mget m k := by
  induction m with
  | nil => simp
  | cons e t ih =>
    by_cases h : e.1 = k
    · have : p e := hp e (List.mem_cons_self e t) h
      simp [List.filter_cons, this, mget, h]
    · by_cases hpe : p e <;>
        simp [List.filter_cons, hpe, mget, h, ih fun x hx => hp x (List.mem_cons_of_mem e hx)]

theorem mget_mput_self (m : List (α × β)) (k : α) (v : β) :
    mget (mput m k v) k = some v := by
  simp [mput, mget]

theorem mget_mput_ne (m : List (α × β)) (k k' : α) (v : β) (h : k' ≠ k) :
    mget (mput m k v) k' = mget m k' := by
  have h1 : mget (m.filter fun e => e.1 ≠ k) k' = mget m k' :=
    mget_filter m (fun e => e.1 ≠ k) k' (fun e _ he => by show e.1 ≠ k; rw [he]; exact h)
  have h2 : ¬ ((k, v) : α × β).1 = k' := fun hk => h hk.symm
  rw [mput, mget, if_neg h2, h1]

theorem mget_mdel_self (m : List (α × β)) (k : α) :
    mget (mdel m k) k = none := by
  rw [mget_eq_none]
  intro e he
  have := List.of_mem_filter he
  simpa using this

theorem mget_mdel_ne (m : List (α × β)) (k k' : α) (h : k' ≠ k) :
    mget (mdel m k) k' = mget m k' :=
  mget_filter m (fun e => e.1 ≠ k) k' (fun e _ he => by show e.1 ≠ k; rw [he]; exact h)

theorem mem_mput (m : List (α × β)) (k : α) (v : β) (e : α × β) :
    e ∈ mput m k v ↔ e = (k, v) ∨ (e ∈ m ∧ e.1 ≠ k) := by
  simp [mput, List.mem_filter, and_comm]

theorem mem_mdel (m : List (α × β)) (k : α) (e : α × β) :
    e ∈ mdel m k ↔ e ∈ m ∧ e.1 ≠ k := by
  simp [mdel, List.mem_filter]

theorem mget_mem (m : List (α × β)) (k : α) (v : β) (h : mget m k = some v) :
    (k, v) ∈ m := by
  induction m with
  | nil => simp [mget] at h
  | cons e t ih =>
    by_cases hk : e.1 = k
    · simp [mget, hk] at h
      have he : e = (k, v) := by
        calc e = (e.1, e.2) := rfl
          _ = (k, v) := by rw [hk, h]
      rw [← he]
      exact List.mem_cons_self e t
    · simp [mget, hk] at h
      exact List.mem_cons_of_mem e (ih h)

theorem mput_ne_nil (m : List (α × β)) (k : α) (v : β) : mput m k v ≠ [] := by
  simp [mput]

end AssocMap

/-! ## DNS names (package `names`)

Go strings are modelled as `List Char`.  Validation functions return `Bool`
(`true` = the Go `Validate` method returned `nil`).  `String()` methods,
which panic on an invalid receiver, are modelled as `Option`-returning
functions with `none` for the panic.
-/

abbrev Str := List Char

/-- First index of a byte in a string, as Go `strings.Index(s, ".")`
(`none` for Go's `-1`). -/
def strIndex (s : Str) (c : Char) : Option Nat :=
  match s with
  | [] => none
  | x :: t => if x = c then some 0 else (strIndex t c).map (· + 1)

/-- `names.Label.Validate`: nonempty and free of dots. -/
def labelOk (s : Str) : Bool :=
  decide (s ≠ []) && !(s.contains '.')

/-- `names.UDN.Validate`: nonempty, no leading dot, no trailing dot. -/
def udnOk (s : Str) : Bool :=
  decide (s ≠ []) && decide (s.head? ≠ some '.') && decide (s.getLast? ≠ some '.')

/-- `names.FQDN.Validate`: nonempty, no leading dot, trailing dot present. -/
def fqdnOk (s : Str) : Bool :=
  decide (s ≠ []) && decide (s.head? ≠ some '.') && decide (s.getLast? = some '.')

/-- `names.Label.String`: validates, then returns the raw text (`none` = panic). -/
def labelString (s : Str) : Option Str :=
  if labelOk s then some s else none

/-- `names.UDN.String` (`none` = panic). -/
def udnString (s : Str) : Option Str :=
  if udnOk s then some s else none

/-- `names.FQDN.String` (`none` = panic). -/
def fqdnString (s : Str) : Option Str :=
  if fqdnOk s then some s else none

/-- The sum of the concrete `names.Name` implementations produced by
`names.Parse`: `Label`, `UDN` and `FQDN`, each carrying its text. -/
inductive NameV : Type
  | label (s : Str)
  | udn (s : Str)
  | fqdn (s : Str)
  deriving DecidableEq, Repr

/-- `names.Parse` followed by `Validate` as in `names.MustParse`
(`none` = panic on an invalid name). -/
def mustParse (s : Str) : Option NameV :=
  match strIndex s '.' with
  | none => if labelOk s then some (.label s) else none
  | some i =>
      if i = s.length - 1 then
        if fqdnOk s then some (.fqdn s) else none
      else
        if udnOk s then some (.udn s) else none

/-- `Name.Qualify(f)` on each variant.  `Label.Qualify`/`UDN.Qualify`
build `self.String() + "." + f.String()` (each `String()` may panic);
`FQDN.Qualify` returns the receiver unchanged without validating. -/
def qualify (n : NameV) (f : Str) : Option Str :=
  match n with
  | .label s => do
      let a ← labelString s
      let b ← fqdnString f
      some (a ++ '.' :: b)
  | .udn s => do
      let a ← udnString s
      let b ← fqdnString f
      some (a ++ '.' :: b)
  | .fqdn s => some s

/-- `Name.Validate` on each variant. -/
def nameOk (n : NameV) : Bool :=
  match n with
  | .label s => labelOk s
  | .udn s => udnOk s
  | .fqdn s => fqdnOk s

/-- `names.FQDN.Split`: validates the receiver (panic = `none`), takes the
first dot index `i`, and returns `(s[:i], s[i:] unless i = len(s)-1)`. -/
def fqdnSplit (s : Str) : Option (Str × Option Str) :=
  match fqdnString s with
  | none => none
  | some t =>
      match strIndex t '.' with
      | none => none
      | some i =>
          some (t.take i, if i = t.length - 1 then none else some (t.drop i))

theorem strIndex_lt_length {s : Str} {c : Char} {i : Nat}
    (h : strIndex s c = some i) : i < s.length := by
  induction s generalizing i with
  | nil => simp [strIndex] at h
  | cons x t ih =>
    by_cases hx : x = c
    · simp [strIndex, hx] at h
      simp [List.length_cons]
      omega
    · simp [strIndex, hx] at h
      obtain ⟨j, hj, rfl⟩ := h
      have := ih hj
      simp [List.length_cons]
      omega

/-- `names.FQDN.Labels`: splits the validated text at every dot. -/
def fqdnLabelsAux (s : Str) : List Str :=
  match h : strIndex s '.' with
  | none => []
  | some i => s.take i :: fqdnLabelsAux (s.drop (i + 1))
termination_by s.length
decreasing_by
  have := strIndex_lt_length h
  simp only [List.length_drop]
  omega

/-- `names.FQDN.Labels` (`none` = panic on an invalid receiver). -/
def fqdnLabels (s : Str) : Option (List Str) :=
  (fqdnString s).map fqdnLabelsAux

theorem fqdnLabelsAux_some {s : Str} {i : Nat} (hi : strIndex s '.' = some i) :
    fqdnLabelsAux s = s.take i :: fqdnLabelsAux (s.drop (i + 1)) := by
  rw [fqdnLabelsAux]
  split
  next heq => rw [heq] at hi; cases hi
  next j heq =>
    rw [heq] at hi
    injection hi with h1
    rw [h1]

theorem strIndex_eq_none {s : Str} {c : Char} :
    strIndex s c = none ↔ c ∉ s := by
  induction s with
  | nil => simp [strIndex]
  | cons x t ih =>
    by_cases hx : x = c
    · simp [strIndex, hx]
    · simp [strIndex, hx, ih, Ne.symm hx]

theorem strIndex_spec {s : Str} {c : Char} {i : Nat}
    (h : strIndex s c = some i) :
    s.take i ++ c :: s.drop (i + 1) = s ∧ c ∉ s.take i := by
  induction s generalizing i with
  | nil => simp [strIndex] at h
  | cons x t ih =>
    by_cases hx : x = c
    · simp [strIndex, hx] at h
      subst hx
      subst h
      simp
    · simp [strIndex, hx] at h
      obtain ⟨j, hj, rfl⟩ := h
      have := ih hj
      simp [List.take_succ_cons, List.drop_succ_cons, this.1, Ne.symm hx, this.2]

/-! ### Claim C6: `FQDN.Split` -/

/-- C6 (amended): for every valid FQDN, `Split` returns the first label as
head (a valid dot-free label) and, unless the name has a single label, a
tail that is the remainder of the name including the separating dot, so the
tail has a leading dot and fails FQDN validation (the claim instead said the
tail is a valid name without the leading dot). -/
theorem c6_fqdnSplit_head_tail (s : Str) (h : fqdnOk s = true) :
    ∃ head rest, fqdnSplit s = some (head, if rest = [] then none else some ('.' :: rest)) ∧
      labelOk head = true ∧
      s = head ++ '.' :: rest ∧
      fqdnLabels s = some (head :: fqdnLabelsAux rest) ∧
      (rest ≠ [] → fqdnOk ('.' :: rest) = false) := by
  have hne : s ≠ [] := by
    intro hs
    rw [hs] at h
    simp [fqdnOk] at h
  have hdot : '.' ∈ s := by
    have hlast : s.getLast? = some '.' := by
      have h' := h
      simp [fqdnOk] at h'
      tauto
    have := List.getLast?_eq_getLast s hne
    rw [this] at hlast
    have : s.getLast hne = '.' := by injection hlast
    rw [← this]
    exact List.getLast_mem hne
  obtain ⟨i, hi⟩ : ∃ i, strIndex s '.' = some i := by
    cases hidx : strIndex s '.' with
    | none => exact absurd (strIndex_eq_none.mp hidx) (by simp [hdot])
    | some i => exact ⟨i, rfl⟩
  have hspec := strIndex_spec hi
  have hilt := strIndex_lt_length hi
  refine ⟨s.take i, s.drop (i + 1), ?_, ?_, hspec.1.symm, ?_, ?_⟩
  · have hlen : (s.take i).length = i := List.length_take_of_le (Nat.le_of_lt hilt)
    have hdropi : s.drop i = '.' :: s.drop (i + 1) := by
      have hdl := List.drop_left (s.take i) ('.' :: s.drop (i + 1))
      rw [hlen, hspec.1] at hdl
      exact hdl
    have hcond : (i = s.length - 1) ↔ (s.drop (i + 1) = []) := by
      rw [List.drop_eq_nil_iff]
      omega
    have heq : (if i = s.length - 1 then none else some (s.drop i)) =
        (if s.drop (i + 1) = [] then none else some ('.' :: s.drop (i + 1))) := by
      by_cases hc : i = s.length - 1
      · rw [if_pos hc, if_pos (hcond.mp hc)]
      · rw [if_neg hc, if_neg (fun hnil => hc (hcond.mpr hnil)), hdropi]
    have hval : fqdnSplit s =
        some (s.take i, if i = s.length - 1 then none else some (s.drop i)) := by
      unfold fqdnSplit fqdnString
      rw [if_pos h]
      simp [hi]
    rw [hval, heq]
  · have hi0 : i ≠ 0 := by
      intro h0
      rw [h0] at hspec
      have : s.head? = some '.' := by
        have := hspec.1
        simp at this
        rw [← this]
        simp
      simp [fqdnOk, this] at h
    have htne : s.take i ≠ [] := by
      have : (s.take i).length = i := List.length_take_of_le (Nat.le_of_lt hilt)
      intro hnil
      rw [hnil] at this
      simp at this
      exact hi0 this.symm
    simp [labelOk, htne, hspec.2]
  · rw [fqdnLabels, fqdnString, if_pos h]
    show some (fqdnLabelsAux s) = some (s.take i :: fqdnLabelsAux (s.drop (i + 1)))
    rw [fqdnLabelsAux_some hi]
  · intro _
    simp [fqdnOk]

/-- C6 counterexample: on the valid FQDN `"foo.bar."` the tail returned by
`Split` is `".bar."`, which keeps the leading separator dot and is not a
valid name, contradicting the claim that the tail is a valid name made of
exactly the remaining labels. -/
theorem c6_counterexample :
    fqdnSplit "foo.bar.".toList =
      some ("foo".toList, some ".bar.".toList) ∧
    fqdnOk ".bar.".toList = false := by
  constructor
  · rfl
  · rfl

/-- C6 witness: the amended theorem applied to the valid FQDN `"ab.cd."`. -/
theorem c6_witness :
    fqdnOk "ab.cd.".toList = true ∧
    (∃ head rest,
      fqdnSplit "ab.cd.".toList =
        some (head, if rest = [] then none else some ('.' :: rest)) ∧
      labelOk head = true ∧
      "ab.cd.".toList = head ++ '.' :: rest ∧
      fqdnLabels "ab.cd.".toList = some (head :: fqdnLabelsAux rest) ∧
      (rest ≠ [] → fqdnOk ('.' :: rest) = false)) :=
  ⟨by decide, c6_fqdnSplit_head_tail "ab.cd.".toList (by decide)⟩

/-! ## TXT data (`dnssd.Text`, claim C10)

`Text` wraps a Go `map[string]string`.  Methods that can panic are
`Option`-returning, with `none` for the panic.  The validators return the
error value of the Go function (`none` = the Go function returned `nil`),
wrapped in the panic-tracking `Option`.
-/

abbrev Text := List (String × String)

/-- `dnssd.ValidateTextKey`: its body is `return nil` (a TODO stub). -/
def validateTextKey (_ : String) : Option (Option String) :=
  some none

/-- `dnssd.ValidateTextValue`: its body is `panic("ni")` (a TODO stub). -/
def validateTextValue (_ : String) : Option (Option String) :=
  none

/-- `Text.Set`: panics on a key error, then on a value error. -/
def textSet (t : Text) (k v : String) : Option Text := do
  let ek ← validateTextKey k
  match ek with
  | some _ => none
  | none =>
      let ev ← validateTextValue v
      match ev with
      | some _ => none
      | none => some (mput t k v)

/-- `Text.Delete`: validates and deletes each key in turn. -/
def textDelete (t : Text) (ks : List String) : Option Text :=
  match ks with
  | [] => some t
  | k :: rest => do
      let ek ← validateTextKey k
      match ek with
      | some _ => none
      | none => textDelete (mdel t k) rest

/-- `Text.SetBool`. -/
def textSetBool (t : Text) (k : String) (v : Bool) : Option Text :=
  if v then textSet t k "" else textDelete t [k]

/-- `Text.Get`. -/
def textGet (t : Text) (k : String) : Option (Option String) := do
  let ek ← validateTextKey k
  match ek with
  | some _ => none
  | none => some (mget t k)

/-- `Text.GetBool`. -/
def textGetBool (t : Text) (k : String) : Option Bool := do
  let ek ← validateTextKey k
  match ek with
  | some _ => none
  | none => some (mget t k).isSome

/-- `Text.Has`: returns `false` at the first key that is absent. -/
def textHas (t : Text) (ks : List String) : Option Bool :=
  match ks with
  | [] => some true
  | k :: rest => do
      let ek ← validateTextKey k
      match ek with
      | some _ => none
      | none =>
          if (mget t k).isSome then textHas t rest else some false

/-- `Text.Pairs`: the strings that appear in the TXT record, one per entry
(`k` for an empty value, `k=v` otherwise). -/
def textPairs (t : Text) : List String :=
  t.map fun e => if e.2 = "" then e.1 else e.1 ++ "=" ++ e.2

/-- C10: `Text.Set` panics for every key and value (the value-validation
stub panics unconditionally), so no pair is ever stored through `Set`, and
`SetBool(k, true)` panics likewise; `Get`, `GetBool`, `Has` and `Delete`
never panic. -/
theorem c10_textSet_always_panics (t : Text) (k v : String) (ks : List String) :
    textSet t k v = none ∧
    textSetBool t k true = none ∧
    (textGet t k).isSome = true ∧
    (textGetBool t k).isSome = true ∧
    (textHas t ks).isSome = true ∧
    (textDelete t ks).isSome = true := by
  have hhas : ∀ (u : Text) (l : List String), (textHas u l).isSome = true := by
    intro u l
    induction l with
    | nil => rfl
    | cons x rest ih =>
      rw [textHas]
      by_cases hx : (mget u x).isSome
      · simp [validateTextKey, Option.bind, hx, ih]
      · simp [validateTextKey, Option.bind, hx]
  have hdel : ∀ (l : List String) (u : Text), (textDelete u l).isSome = true := by
    intro l
    induction l with
    | nil => intro u; rfl
    | cons x rest ih =>
      intro u
      rw [textDelete]
      simpa [validateTextKey, Option.bind] using ih (mdel u x)
  exact ⟨rfl, rfl, rfl, rfl, hhas t ks, hdel ks t⟩

/-! ## Startup jitter (`mdns.randT`, claim C7) -/

/-- `randTBetween` as written in the source: the Go body is
`rand.Int63n(int64(max-min)) + int64(max)`.  Durations are in nanoseconds;
`r` stands for the value drawn by `rand.Int63n(max-min)`, which lies in
`[0, max-min)`. -/
def randTBetween (mn mx r : Int) : Int :=
  r + mx

/-- `randT(d)` = `randTBetween(0, d)`. -/
def randT (d r : Int) : Int :=
  randTBetween 0 d r

/-- C7 evaluation at the failing input: with the 250 ms bound
(250 000 000 ns) and a draw of 1, the jitter is 250 000 001 ns, exceeding
the claimed maximum of 250 ms; the draws 0 and 249 999 999 show the actual
range is [250 ms, 500 ms), not [0, 250 ms]. -/
theorem c7_randT_exceeds_claimed_range :
    randT 250000000 1 = 250000001 ∧
    250000000 < randT 250000000 1 ∧
    randT 250000000 0 = 250000000 ∧
    randT 250000000 249999999 = 499999999 := by
  refine ⟨rfl, ?_, rfl, rfl⟩
  norm_num [randT, randTBetween]

/-! ## DNS records and messages (`github.com/miekg/dns` as used by the source) -/

/-- Record data for the record types the responder synthesises. -/
inductive Rdata : Type
  | ptr (target : Str)
  | srv (priority weight port : Nat) (target : Str)
  | txt (txt : List String)
  | a (ip : List Nat)
  | aaaa (ip : List Nat)
  deriving DecidableEq, Repr

/-- A DNS resource record (`dns.RR` with its `dns.RR_Header`); `rrclass`
is the wire `Class` field (a uint16). -/
structure RecordM : Type where
  name : Str
  rrtype : Nat
  rrclass : Nat
  ttl : Nat
  rdata : Rdata
  deriving DecidableEq, Repr

def typeA : Nat := 1
def typePTR : Nat := 12
def typeTXT : Nat := 16
def typeAAAA : Nat := 28
def typeSRV : Nat := 33
def typeANY : Nat := 255
def classINET : Nat := 1

/-- A DNS question (`dns.Question`). -/
structure QuestionM : Type where
  name : Str
  qtype : Nat
  qclass : Nat
  deriving DecidableEq, Repr

/-- The parts of `dns.Msg` the responder reads or writes. -/
structure MsgM : Type where
  id : Nat
  response : Bool
  opcode : Nat
  authoritative : Bool
  truncated : Bool
  recursionDesired : Bool
  recursionAvailable : Bool
  zero : Bool
  authenticatedData : Bool
  checkingDisabled : Bool
  rcode : Nat
  compress : Bool
  question : List QuestionM
  answer : List RecordM
  ns : List RecordM
  extra : List RecordM
  deriving DecidableEq, Repr

/-- The zero value `dns.Msg{}`. -/
def emptyMsg : MsgM :=
  ⟨0, false, 0, false, false, false, false, false, false, false, 0, false, [], [], [], []⟩

/-- `dns.Msg.SetReply` from the vendored `github.com/miekg/dns` dependency:
copies the ID, marks the message a response, copies the opcode (copying the
RD/CD bits for standard queries), sets Rcode to success, and copies the
first question. -/
def setReply (m req : MsgM) : MsgM :=
  let m1 := { m with id := req.id, response := true, opcode := req.opcode }
  let m2 :=
    if m1.opcode = 0 then
      { m1 with recursionDesired := req.recursionDesired,
                checkingDisabled := req.checkingDisabled }
    else m1
  let m3 := { m2 with rcode := 0 }
  match req.question with
  | [] => m3
  | q :: _ => { m3 with question := [q] }

/-- `mdns.NewResponse(query, unicast)`. -/
def newResponse (query : MsgM) (unicast : Bool) : MsgM :=
  let m := setReply emptyMsg query
  let m := { m with question := [] }
  let m := if unicast then m else { m with id := 0 }
  { m with
    opcode := 0,
    authoritative := true,
    truncated := false,
    recursionDesired := false,
    recursionAvailable := false,
    zero := false,
    authenticatedData := false,
    checkingDisabled := false,
    rcode := 0,
    compress := true }

/-- C5: the response frame built by `NewResponse` has an empty question
section, is authoritative, has opcode 0 and rcode 0, has the
TC/RD/RA/Z/AD/CD bits all clear, and carries the query ID when a legacy
unicast response is requested and ID 0 otherwise. -/
theorem c5_newResponse_frame (q : MsgM) (unicast : Bool) :
    (newResponse q unicast).question = [] ∧
    (newResponse q unicast).authoritative = true ∧
    (newResponse q unicast).opcode = 0 ∧
    (newResponse q unicast).rcode = 0 ∧
    (newResponse q unicast).truncated = false ∧
    (newResponse q unicast).recursionDesired = false ∧
    (newResponse q unicast).recursionAvailable = false ∧
    (newResponse q unicast).zero = false ∧
    (newResponse q unicast).authenticatedData = false ∧
    (newResponse q unicast).checkingDisabled = false ∧
    (newResponse q unicast).id = (if unicast then q.id else 0) := by
  cases unicast <;>
    cases hq : q.question <;>
      simp [newResponse, setReply, emptyMsg, hq] <;>
        split <;> simp

/-- `mdns.NewQuery(legacy, q...)`: builds `&dns.Msg{Question: q}` and sets
the header fields; `randId` stands for the value returned by `dns.Id()`.
The source assigns the random ID when `legacy` is FALSE. -/
def newQuery (legacy : Bool) (q : List QuestionM) (randId : Nat) : MsgM :=
  let m := { emptyMsg with question := q }
  let m := if legacy then m else { m with id := randId }
  { m with
    opcode := 0,
    authoritative := false,
    truncated := false,
    recursionDesired := false,
    recursionAvailable := false,
    zero := false,
    authenticatedData := false,
    checkingDisabled := false,
    rcode := 0,
    compress := true }

/-- C8 evaluation at the failing input: a self-originated multicast
(non-legacy) query with `dns.Id()` drawing 42 carries ID 42 rather than the
claimed 0, while a legacy query is the one left with ID 0 - the assignment
is inverted with respect to the RFC 6762 §18.1 comment above it. -/
theorem c8_newQuery_id_inverted :
    (newQuery false [] 42).id = 42 ∧
    (newQuery false [] 42).id ≠ 0 ∧
    (newQuery true [] 42).id = 0 := by
  refine ⟨rfl, ?_, rfl⟩
  decide

/-! ## Response accumulators (`responder.Answer`, claims C4 and C2) -/

/-- `responder.ResponseSections`. -/
structure ResponseSections : Type where
  answerSection : List RecordM
  authoritySection : List RecordM
  additionalSection : List RecordM
  deriving DecidableEq, Repr

def emptySections : ResponseSections := ⟨[], [], []⟩

/-- `ResponseSections.Answer`: appends records to the answer section. -/
def secAnswer (rs : ResponseSections) (records : List RecordM) : ResponseSections :=
  { rs with answerSection := rs.answerSection ++ records }

/-- `ResponseSections.Authority`. -/
def secAuthority (rs : ResponseSections) (records : List RecordM) : ResponseSections :=
  { rs with authoritySection := rs.authoritySection ++ records }

/-- `ResponseSections.Additional`. -/
def secAdditional (rs : ResponseSections) (records : List RecordM) : ResponseSections :=
  { rs with additionalSection := rs.additionalSection ++ records }

/-- `ResponseSections.IsEmpty`. -/
def secIsEmpty (rs : ResponseSections) : Bool :=
  decide (rs.answerSection = []) && decide (rs.authoritySection = []) &&
    decide (rs.additionalSection = [])

/-- `responder.Answer`: the per-question accumulator with its unique and
shared scopes. -/
structure Answer : Type where
  unique : ResponseSections
  shared : ResponseSections
  deriving DecidableEq, Repr

def emptyAnswer : Answer := ⟨emptySections, emptySections⟩

/-- `mdns.UniqueRecordBit` (`1 << 15`). -/
def uniqueRecordBit : Nat := 32768

/-- `mdns.SetUniqueRecord`: copies the record with the unique-record
(cache-flush) bit added to its class. -/
def setUniqueRecord (r : RecordM) : RecordM :=
  { r with rrclass := r.rrclass ||| uniqueRecordBit }

/-- `responder.appendUnique`: appends copies of `source` with the unique
bit set. -/
def appendUnique (target source : List RecordM) : List RecordM :=
  target ++ source.map setUniqueRecord

/-- `Answer.appendToMessage(m, legacy)`. -/
def appendToMessage (a : Answer) (m : MsgM) (legacy : Bool) : MsgM :=
  let m1 :=
    if legacy then
      { m with
        answer := m.answer ++ a.unique.answerSection,
        ns := m.ns ++ a.unique.authoritySection,
        extra := m.extra ++ a.unique.additionalSection }
    else
      { m with
        answer := appendUnique m.answer a.unique.answerSection,
        ns := appendUnique m.ns a.unique.authoritySection,
        extra := appendUnique m.extra a.unique.additionalSection }
  { m1 with
    answer := m1.answer ++ a.shared.answerSection,
    ns := m1.ns ++ a.shared.authoritySection,
    extra := m1.extra ++ a.shared.additionalSection }

/-- The per-question folding loop of `handleQuery.query`: each question's
accumulator is folded into the response frame in order. -/
def foldAnswers (m : MsgM) (al : List Answer) (legacy : Bool) : MsgM :=
  al.foldl (fun acc a => appendToMessage a acc legacy) m

/-- All records of an accumulator's unique scope. -/
def accUnique (a : Answer) : List RecordM :=
  a.unique.answerSection ++ a.unique.authoritySection ++ a.unique.additionalSection

/-- All records of an accumulator's shared scope. -/
def accShared (a : Answer) : List RecordM :=
  a.shared.answerSection ++ a.shared.authoritySection ++ a.shared.additionalSection

/-- All records of a message's three record sections. -/
def msgRecords (m : MsgM) : List RecordM :=
  m.answer ++ m.ns ++ m.extra

theorem foldAnswers_sections (m : MsgM) (al : List Answer) (legacy : Bool) :
    (foldAnswers m al legacy).answer =
      m.answer ++ al.flatMap (fun a =>
        (if legacy then a.unique.answerSection
         else a.unique.answerSection.map setUniqueRecord) ++ a.shared.answerSection) ∧
    (foldAnswers m al legacy).ns =
      m.ns ++ al.flatMap (fun a =>
        (if legacy then a.unique.authoritySection
         else a.unique.authoritySection.map setUniqueRecord) ++ a.shared.authoritySection) ∧
    (foldAnswers m al legacy).extra =
      m.extra ++ al.flatMap (fun a =>
        (if legacy then a.unique.additionalSection
         else a.unique.additionalSection.map setUniqueRecord) ++ a.shared.additionalSection) ∧
    (foldAnswers m al legacy).question = m.question := by
  induction al generalizing m with
  | nil => simp [foldAnswers]
  | cons a rest ih =>
    have hstep := ih (appendToMessage a m legacy)
    cases legacy <;>
      simp [foldAnswers, appendToMessage, appendUnique] at hstep ⊢ <;>
        simp [hstep]

theorem setUniqueRecord_bit (r : RecordM) :
    (setUniqueRecord r).rrclass &&& 32768 = 32768 := by
  show (r.rrclass ||| 32768) &&& 32768 = 32768
  apply Nat.eq_of_testBit_eq
  intro i
  simp only [Nat.testBit_and, Nat.testBit_or]
  cases hx : r.rrclass.testBit i <;> cases hb : Nat.testBit 32768 i <;> simp

theorem newResponse_sections_empty (q : MsgM) (unicast : Bool) :
    (newResponse q unicast).answer = [] ∧ (newResponse q unicast).ns = [] ∧
      (newResponse q unicast).extra = [] := by
  cases unicast <;> cases hq : q.question <;>
    simp [newResponse, setReply, emptyMsg, hq] <;> split <;> simp

/-- C4: folding an accumulator whose records all have the top class bit
clear (as every synthesised record does) into a response: in a non-legacy
fold every unique-scope record is emitted with `rrclass & 0x8000 = 0x8000`
while shared-scope records keep the bit clear, and the bit is set on
exactly the unique-scope copies; in a legacy fold the bit is clear on every
emitted record. -/
theorem c4_cache_flush_bit (q : MsgM) (unicast : Bool) (al : List Answer)
    (hclear : ∀ a ∈ al, ∀ r ∈ accUnique a ++ accShared a, r.rrclass &&& 32768 = 0) :
    (∀ a ∈ al, ∀ r ∈ accUnique a,
        (setUniqueRecord r).rrclass &&& 32768 = 32768 ∧
        setUniqueRecord r ∈ msgRecords (foldAnswers (newResponse q unicast) al false)) ∧
    (∀ a ∈ al, ∀ r ∈ accShared a,
        r.rrclass &&& 32768 = 0 ∧
        r ∈ msgRecords (foldAnswers (newResponse q unicast) al false)) ∧
    (∀ r ∈ msgRecords (foldAnswers (newResponse q unicast) al false),
        (r.rrclass &&& 32768 = 32768 ↔ ∃ a ∈ al, ∃ u ∈ accUnique a, r = setUniqueRecord u)) ∧
    (∀ r ∈ msgRecords (foldAnswers (newResponse q true) al true),
        r.rrclass &&& 32768 = 0) := by
  have hbase := newResponse_sections_empty q unicast
  have hbaseL := newResponse_sections_empty q true
  have hnl := foldAnswers_sections (newResponse q unicast) al false
  have hl := foldAnswers_sections (newResponse q true) al true
  have hmemNL : ∀ r, r ∈ msgRecords (foldAnswers (newResponse q unicast) al false) ↔
      ∃ a ∈ al,
        r ∈ a.unique.answerSection.map setUniqueRecord ++ a.shared.answerSection ∨
        r ∈ a.unique.authoritySection.map setUniqueRecord ++ a.shared.authoritySection ∨
        r ∈ a.unique.additionalSection.map setUniqueRecord ++ a.shared.additionalSection := by
    intro r
    rw [msgRecords, hnl.1, hnl.2.1, hnl.2.2.1, hbase.1, hbase.2.1, hbase.2.2]
    simp only [List.nil_append, List.mem_append, List.mem_flatMap, if_neg (by simp : ¬False)]
    constructor
    · rintro ((⟨a, ha, hr⟩ | ⟨a, ha, hr⟩) | ⟨a, ha, hr⟩) <;>
        exact ⟨a, ha, by simp_all⟩
    · rintro ⟨a, ha, (hr | hr | hr)⟩
      · exact Or.inl (Or.inl ⟨a, ha, by simp_all⟩)
      · exact Or.inl (Or.inr ⟨a, ha, by simp_all⟩)
      · exact Or.inr ⟨a, ha, by simp_all⟩
  have hmemL : ∀ r, r ∈ msgRecords (foldAnswers (newResponse q true) al true) →
      ∃ a ∈ al, r ∈ accUnique a ++ accShared a := by
    intro r hr
    rw [msgRecords, hl.1, hl.2.1, hl.2.2.1, hbaseL.1, hbaseL.2.1, hbaseL.2.2] at hr
    simp only [List.nil_append, List.mem_append, List.mem_flatMap] at hr
    rcases hr with (⟨a, ha, hr⟩ | ⟨a, ha, hr⟩) | ⟨a, ha, hr⟩ <;>
      · refine ⟨a, ha, ?_⟩
        simp only [accUnique, accShared, List.mem_append] at hr ⊢
        tauto
  refine ⟨?_, ?_, ?_, ?_⟩
  · intro a ha r hr
    refine ⟨setUniqueRecord_bit r, ?_⟩
    rw [hmemNL]
    refine ⟨a, ha, ?_⟩
    simp only [accUnique, List.mem_append] at hr
    rcases hr with (hr | hr) | hr
    · exact Or.inl (by simp [List.mem_append, List.mem_map]; exact Or.inl ⟨r, hr, rfl⟩)
    · exact Or.inr (Or.inl (by simp [List.mem_append, List.mem_map]; exact Or.inl ⟨r, hr, rfl⟩))
    · exact Or.inr (Or.inr (by simp [List.mem_append, List.mem_map]; exact Or.inl ⟨r, hr, rfl⟩))
  · intro a ha r hr
    have hc : r.rrclass &&& 32768 = 0 :=
      hclear a ha r (by simp [List.mem_append]; right; exact hr)
    refine ⟨hc, ?_⟩
    rw [hmemNL]
    refine ⟨a, ha, ?_⟩
    simp only [accShared, List.mem_append] at hr
    rcases hr with (hr | hr) | hr
    · exact Or.inl (by simp [List.mem_append]; exact Or.inr hr)
    · exact Or.inr (Or.inl (by simp [List.mem_append]; exact Or.inr hr))
    · exact Or.inr (Or.inr (by simp [List.mem_append]; exact Or.inr hr))
  · intro r hr
    constructor
    · intro hbit
      obtain ⟨a, ha, hsec⟩ := (hmemNL r).mp hr
      have hcase : (∃ u ∈ accUnique a, r = setUniqueRecord u) ∨ r ∈ accShared a := by
        simp only [accUnique, accShared, List.mem_append, List.mem_map] at hsec ⊢
        rcases hsec with hx | hx | hx <;>
          rcases hx with ⟨u, hu, hru⟩ | hy <;>
            first
              | exact Or.inl ⟨u, by tauto, hru.symm⟩
              | exact Or.inr (by tauto)
      rcases hcase with ⟨u, hu, rfl⟩ | hsh
      · exact ⟨a, ha, u, hu, rfl⟩
      · have := hclear a ha r (by simp [List.mem_append]; right; exact hsh)
        rw [this] at hbit
        cases hbit
    · rintro ⟨a, _, u, _, rfl⟩
      exact setUniqueRecord_bit u
  · intro r hr
    obtain ⟨a, ha, hmem⟩ := hmemL r hr
    exact hclear a ha r hmem

def c4r1 : RecordM := ⟨"x.local.".toList, typeSRV, classINET, 120, .srv 10 1 80 "host.local.".toList⟩

def c4r2 : RecordM := ⟨"_x._tcp.local.".toList, typePTR, classINET, 120, .ptr "x.local.".toList⟩

def c4acc : Answer := ⟨⟨[c4r1], [], []⟩, ⟨[c4r2], [], []⟩⟩

/-- C4 witness: the theorem applied to a one-accumulator fold holding one
unique SRV record and one shared PTR record, both of class IN. -/
theorem c4_witness :
    (setUniqueRecord c4r1).rrclass &&& 32768 = 32768 ∧
    setUniqueRecord c4r1 ∈ msgRecords (foldAnswers (newResponse emptyMsg false) [c4acc] false) :=
  (c4_cache_flush_bit emptyMsg false [c4acc] (by decide)).1 c4acc (by decide) c4r1 (by decide)

/-! ## Sending responses (`transport.SendResponse`, claim C9) -/

/-- `transport.OutboundPacket` with its destination `transport.Endpoint`
(interface index, abstract address id) and packed wire data. -/
structure OutPacket : Type where
  interfaceIndex : Nat
  address : Nat
  data : List Nat
  deriving DecidableEq, Repr

/-- Outcome of `transport.SendResponse`: the returned boolean, the
datagrams handed to `Transport.Write`, and whether packing
(`dns.Msg.PackBuffer` inside `NewOutboundPacket`) returned an error. -/
structure SendResult : Type where
  ok : Bool
  wrote : List OutPacket
  packError : Bool
  deriving DecidableEq, Repr

/-- The emptiness test at the top of `transport.SendResponse`. -/
def msgSectionsEmpty (m : MsgM) : Bool :=
  decide (m.question = []) && decide (m.answer = []) &&
    decide (m.ns = []) && decide (m.extra = [])

/-- `transport.SendResponse(in, to, m)`: returns `(false, nil)` without a
write when all four sections are empty; otherwise packs `m` (`pack`
abstracts `dns.Msg.PackBuffer`, which fails on un-packable messages such as
a TXT record holding a string over 255 octets) and on success performs
exactly one `Transport.Write`. -/
def sendResponse (pack : MsgM → Option (List Nat)) (srcIfIndex : Nat) (dst : Nat)
    (m : MsgM) : SendResult :=
  if msgSectionsEmpty m then ⟨false, [], false⟩
  else
    match pack m with
    | none => ⟨false, [], true⟩
    | some d => ⟨true, [⟨srcIfIndex, dst, d⟩], false⟩

/-- `transport.SendUnicastResponse`: sends back to the packet's source
address. -/
def sendUnicastResponse (pack : MsgM → Option (List Nat)) (srcIfIndex srcAddr : Nat)
    (m : MsgM) : SendResult :=
  sendResponse pack srcIfIndex srcAddr m

/-- `transport.SendMulticastResponse`: sends to the transport's group
address. -/
def sendMulticastResponse (pack : MsgM → Option (List Nat)) (srcIfIndex group : Nat)
    (m : MsgM) : SendResult :=
  sendResponse pack srcIfIndex group m

/-- C9 (amended): an all-empty response is never transmitted (`false`, no
write); a non-empty response yields exactly one datagram when the message
packs, and no datagram at all (with `false` returned) when packing fails -
the claim's unconditional "exactly one datagram when non-empty" holds only
when packing succeeds.  At most one datagram is ever written. -/
theorem c9_sendResponse_behavior (pack : MsgM → Option (List Nat))
    (srcIfIndex dst : Nat) (m : MsgM) :
    (msgSectionsEmpty m = true → sendResponse pack srcIfIndex dst m = ⟨false, [], false⟩) ∧
    (∀ d, msgSectionsEmpty m = false → pack m = some d →
      sendResponse pack srcIfIndex dst m = ⟨true, [⟨srcIfIndex, dst, d⟩], false⟩) ∧
    (msgSectionsEmpty m = false → pack m = none →
      sendResponse pack srcIfIndex dst m = ⟨false, [], true⟩) ∧
    (sendResponse pack srcIfIndex dst m).wrote.length ≤ 1 := by
  refine ⟨?_, ?_, ?_, ?_⟩
  · intro he
    rw [sendResponse, if_pos he]
  · intro d he hp
    rw [sendResponse, if_neg (by rw [he]; exact Bool.false_ne_true), hp]
  · intro he hp
    rw [sendResponse, if_neg (by rw [he]; exact Bool.false_ne_true), hp]
  · rw [sendResponse]
    by_cases he : msgSectionsEmpty m
    · rw [if_pos he]
      decide
    · rw [if_neg he]
      cases pack m <;> simp

def c9msg : MsgM := { emptyMsg with answer := [c4r2] }

/-- C9 counterexample: a non-empty response on which packing fails (as
`dns.Msg.PackBuffer` does on un-packable messages) produces no datagram at
all, refuting the claim that a response with a non-empty section always
yields exactly one written datagram. -/
theorem c9_counterexample :
    msgSectionsEmpty c9msg = false ∧
    (sendResponse (fun _ => none) 3 4 c9msg).wrote = [] ∧
    ¬ (sendResponse (fun _ => none) 3 4 c9msg).wrote.length = 1 := by
  refine ⟨by decide, rfl, by decide⟩

/-- C9 witness: the amended theorem applied to a concrete non-empty message
with a concrete successful packing. -/
theorem c9_witness :
    sendResponse (fun _ => some [7]) 1 2 c9msg = ⟨true, [⟨1, 2, [7]⟩], false⟩ :=
  (c9_sendResponse_behavior (fun _ => some [7]) 1 2 c9msg).2.1 [7] (by decide) rfl

/-! ## DNS-SD service instances (`dnssd.Instance`) -/

/-- `dnssd.ServiceType.Validate`: nonempty, no leading dot, no trailing
dot. -/
def serviceTypeOk (s : Str) : Bool :=
  decide (s ≠ []) && decide (s.head? ≠ some '.') && decide (s.getLast? ≠ some '.')

/-- `dnssd.ServiceType.String` (`none` = panic). -/
def serviceTypeString (s : Str) : Option Str :=
  if serviceTypeOk s then some s else none

/-- `dnssd.InstanceName.String`: validates (nonempty only) and returns the
raw text - the source carries `TODO(jmalloc): escape` and performs no
RFC 6763 §4.3 escaping (`none` = panic). -/
def instanceNameString (n : Str) : Option Str :=
  if n = [] then none else some n

/-- `dnssd.Instance` (instance name text, service type text, domain text,
target host name, target port, TXT pairs, SRV priority and weight, TTL in
nanoseconds). -/
structure Instance : Type where
  name : Str
  serviceType : Str
  domain : Str
  targetHost : NameV
  targetPort : Nat
  text : Text
  priority : Nat
  weight : Nat
  ttl : Nat
  deriving DecidableEq, Repr

/-- `dnssd.DefaultTTL` (120 s in nanoseconds). -/
def defaultTTL : Nat := 120000000000

/-- `Instance.TTLInSeconds`: `uint32(ttl.Seconds())` with the default
applied to a zero TTL.  `Duration.Seconds` goes through float64; for the
nanosecond magnitudes used here the truncation equals integer division. -/
def ttlInSeconds (i : Instance) : Nat :=
  (if i.ttl = 0 then defaultTTL else i.ttl) / 1000000000 % 4294967296

/-- `Instance.Validate` (`true` = the Go method returned `nil`).  The
instance-name check is nonemptiness only (`TODO(jmalloc): actually
validate`). -/
def instanceValidate (i : Instance) : Bool :=
  decide (i.name ≠ []) && serviceTypeOk i.serviceType && fqdnOk i.domain &&
    nameOk i.targetHost && decide (i.targetPort ≠ 0)

/-- `Instance.FQDN()` = `i.Name.Join(i.ServiceType).Qualify(i.Domain)`,
where `InstanceName.Join` is `names.MustParse(n.String() + "." +
s.String())` (`none` = panic anywhere along the way). -/
def instFQDN (i : Instance) : Option Str := do
  let n ← instanceNameString i.name
  let t ← serviceTypeString i.serviceType
  let j ← mustParse (n ++ '.' :: t)
  qualify j i.domain

/-- `Instance.TargetFQDN()` = `i.TargetHost.Qualify(i.Domain)`. -/
def targetFQDN (i : Instance) : Option Str :=
  qualify i.targetHost i.domain

/-- `dnssd.TypeEnumDomain(domain)` =
`names.UDN("_services._dns-sd._udp").Qualify(domain)` (as the identically
defined `TypeEnumerationDomain` in the source tree). -/
def typeEnumDomain (d : Str) : Option Str :=
  qualify (.udn "_services._dns-sd._udp".toList) d

/-- `dnssd.InstanceEnumDomain(t, domain)` = `t.Qualify(domain)` (as the
identically defined `InstanceEnumerationDomain` in the source tree). -/
def instanceEnumDomain (t d : Str) : Option Str := do
  let a ← serviceTypeString t
  let b ← fqdnString d
  some (a ++ '.' :: b)

/-- `Instance.PTR()`: owner `InstanceEnumDomain(i.ServiceType, i.Domain)`,
class IN, RDATA `i.FQDN()`. -/
def instancePTR (i : Instance) : Option RecordM := do
  let n ← instanceEnumDomain i.serviceType i.domain
  let ns ← fqdnString n
  let f ← instFQDN i
  let fs ← fqdnString f
  some ⟨ns, typePTR, classINET, ttlInSeconds i, .ptr fs⟩

/-- `Instance.SRV()`. -/
def instanceSRV (i : Instance) : Option RecordM := do
  let f ← instFQDN i
  let fs ← fqdnString f
  let t ← qualify i.targetHost i.domain
  let ts ← fqdnString t
  some ⟨fs, typeSRV, classINET, ttlInSeconds i,
    .srv i.priority i.weight i.targetPort ts⟩

/-- `Instance.TXT()`. -/
def instanceTXT (i : Instance) : Option RecordM := do
  let f ← instFQDN i
  let fs ← fqdnString f
  some ⟨fs, typeTXT, classINET, ttlInSeconds i, .txt (textPairs i.text)⟩

/-- `Instance.A(ip)`. -/
def instanceA (i : Instance) (ip : List Nat) : Option RecordM := do
  let t ← qualify i.targetHost i.domain
  let ts ← fqdnString t
  some ⟨ts, typeA, classINET, ttlInSeconds i, .a ip⟩

/-- `Instance.AAAA(ip)`. -/
def instanceAAAA (i : Instance) (ip : List Nat) : Option RecordM := do
  let t ← qualify i.targetHost i.domain
  let ts ← fqdnString t
  some ⟨ts, typeAAAA, classINET, ttlInSeconds i, .aaaa ip⟩

/-! ## Instance-label escaping (claim C3) -/

/-- Modelled from the spec: the RFC 6763 §4.3 wire encoding of an instance
label, escaping `.` as `\.` and `\` as `\\` - the behaviour the source's
`InstanceName.String` marks as `TODO(jmalloc): escape` but does not
implement. -/
def escapeInstanceLabel : Str → Str
  | [] => []
  | c :: t =>
      if c = '.' ∨ c = '\\' then '\\' :: c :: escapeInstanceLabel t
      else c :: escapeInstanceLabel t

/-- Modelled from the spec: decoding the first escaped instance label of a
name (`SplitInstanceName` is absent from the source tree): a backslash
makes the next byte literal, and an unescaped dot terminates the label. -/
def decodeInstanceLabel : Str → Str
  | [] => []
  | c :: t =>
      if c = '\\' then
        match t with
        | [] => []
        | c2 :: t2 => c2 :: decodeInstanceLabel t2
      else if c = '.' then []
      else c :: decodeInstanceLabel t

theorem decode_cons_backslash (c2 : Char) (t2 : Str) :
    decodeInstanceLabel ('\\' :: c2 :: t2) = c2 :: decodeInstanceLabel t2 := by
  rw [decodeInstanceLabel.eq_def]
  simp

theorem decode_cons_dot (t : Str) :
    decodeInstanceLabel ('.' :: t) = [] := by
  rw [decodeInstanceLabel.eq_def]
  simp

theorem decode_cons_other (c : Char) (t : Str) (hbs : c ≠ '\\') (hdot : c ≠ '.') :
    decodeInstanceLabel (c :: t) = c :: decodeInstanceLabel t := by
  rw [decodeInstanceLabel.eq_def]
  simp [hbs, hdot]

/-- The spec's encoder and decoder do round-trip (for every label, with or
without embedded NUL): the claim's property holds of the specified
algorithm, which the source does not implement. -/
theorem decode_escape_roundTrip (l : Str) (rest : Str)
    (hrest : rest = [] ∨ rest.head? = some '.') :
    decodeInstanceLabel (escapeInstanceLabel l ++ rest) = l := by
  induction l with
  | nil =>
    rcases hrest with h | h
    · simp [h, escapeInstanceLabel, decodeInstanceLabel]
    · cases rest with
      | nil => simp [escapeInstanceLabel, decodeInstanceLabel]
      | cons c t =>
        have hc : c = '.' := by simpa using h
        subst hc
        show decodeInstanceLabel (escapeInstanceLabel [] ++ '.' :: t) = []
        rw [show escapeInstanceLabel [] ++ '.' :: t = '.' :: t from rfl]
        exact decode_cons_dot t
  | cons c t ih =>
    by_cases hc : c = '.' ∨ c = '\\'
    · rw [escapeInstanceLabel]
      simp only [if_pos hc, List.cons_append]
      rw [decode_cons_backslash, ih]
    · have hcdot : c ≠ '.' := fun hx => hc (Or.inl hx)
      have hcbs : c ≠ '\\' := fun hx => hc (Or.inr hx)
      rw [escapeInstanceLabel]
      simp only [if_neg hc, List.cons_append]
      rw [decode_cons_other c _ hcbs hcdot, ih]

/-- C3 evaluation at the failing input: for the instance label `"a.b"` the
source renders the raw text `"a.b"` into the instance FQDN
(`"a.b._http._tcp.local."`), not the claimed escaped form `"a\.b"`; and
decoding the rendered FQDN's first label recovers `"a"`, not `"a.b"`, so
the round-trip fails on the code. -/
theorem c3_escaping_not_implemented :
    instanceNameString "a.b".toList = some "a.b".toList ∧
    escapeInstanceLabel "a.b".toList = "a\\.b".toList ∧
    "a.b".toList ≠ "a\\.b".toList ∧
    instFQDN ⟨"a.b".toList, "_http._tcp".toList, "local.".toList,
        .label "host".toList, 80, [], 10, 1, 0⟩ =
      some "a.b._http._tcp.local.".toList ∧
    decodeInstanceLabel "a.b._http._tcp.local.".toList = "a".toList ∧
    decodeInstanceLabel "a.b".toList ≠ "a.b".toList := by
  refine ⟨rfl, rfl, by decide, rfl, rfl, by decide⟩

/-! ## Instance enumeration (`bonjour.instanceEnumAnswerer`, claim C2) -/

/-- `dnssd.Service`: type, domain, and keyed instances. -/
structure ServiceM : Type where
  type : Str
  domain : Str
  instances : List (Str × Instance)
  deriving DecidableEq, Repr

/-- `bonjour.instanceEnumAnswerer.Answer`: on a PTR or ANY question, for
each instance appends the instance's PTR record with `a.Unique.Answer`,
appends SRV and TXT with `a.Unique.Additional`, and on resolver success
(`resolve` abstracts `addressRecords`) appends the A/AAAA records as unique
additionals; other qtypes leave the accumulator unchanged (`none` = panic
while building a record). -/
def instanceEnumAnswer (resolve : Instance → Option (List RecordM × List RecordM))
    (s : ServiceM) (qtype : Nat) (a : Answer) : Option Answer :=
  if qtype = typePTR ∨ qtype = typeANY then
    s.instances.foldlM (fun acc e => do
      let i := e.2
      let ptr ← instancePTR i
      let acc1 : Answer := { acc with unique := secAnswer acc.unique [ptr] }
      let srv ← instanceSRV i
      let txt ← instanceTXT i
      let acc2 : Answer := { acc1 with unique := secAdditional acc1.unique [srv, txt] }
      match resolve i with
      | some (v4, v6) =>
          some { acc2 with unique := secAdditional (secAdditional acc2.unique v4) v6 }
      | none => some acc2) a
  else some a

def c2inst : Instance :=
  ⟨"svc".toList, "_http._tcp".toList, "local.".toList, .label "host".toList,
    80, [], 10, 1, 0⟩

def c2svc : ServiceM :=
  ⟨"_http._tcp".toList, "local.".toList, [("svc".toList, c2inst)]⟩

/-- C2 evaluation at the failing input: a PTR question on
`_http._tcp.local.` with one live instance.  The enumeration PTR record is
appended to the UNIQUE scope's answer section and the Shared scope stays
completely empty, so in a non-legacy response this PTR is emitted with the
cache-flush bit - the claim (and spec) say it must go to the Shared
scope. -/
theorem c2_enum_ptr_lands_in_unique_scope :
    instanceEnumAnswer (fun _ => none) c2svc typePTR emptyAnswer =
      some ⟨⟨[⟨"_http._tcp.local.".toList, typePTR, classINET, 120,
               .ptr "svc._http._tcp.local.".toList⟩], [],
             [⟨"svc._http._tcp.local.".toList, typeSRV, classINET, 120,
               .srv 10 1 80 "host.local.".toList⟩,
              ⟨"svc._http._tcp.local.".toList, typeTXT, classINET, 120, .txt []⟩]⟩,
            emptySections⟩ := by
  decide

/-! ## The DNS-SD registry (`bonjour.Answerer`, claim C1) -/

/-- `dnssd.Domain`: name and keyed services. -/
structure DomainM : Type where
  name : Str
  services : List (Str × ServiceM)
  deriving DecidableEq, Repr

/-- The name-answerer values stored in `Answerer.answerers`, identified by
the data the source stores a pointer to: `typeEnumAnswerer` holds the
domain, `instanceEnumAnswerer` holds the service (its type and domain),
`instanceAnswerer` and `targetAnswerer` hold the instance. -/
inductive AnswererV : Type
  | typeEnum (domain : Str)
  | instanceEnum (serviceType domain : Str)
  | inst (i : Instance)
  | target (i : Instance)
  deriving DecidableEq, Repr

/-- `bonjour.Answerer` state: the domain tree and the FQDN-to-answerer
index. -/
structure Registry : Type where
  domains : List (Str × DomainM)
  answerers : List (Str × AnswererV)
  deriving DecidableEq, Repr

def emptyRegistry : Registry := ⟨[], []⟩

/-- `Answerer.AddInstance(i)` (`none` = panic: an invalid instance, or a
name computation that panics, such as `MustParse` on an instance name with
a leading dot). -/
def addInstance (st : Registry) (i : Instance) : Option Registry := do
  if instanceValidate i then
    let (d, a1) ←
      match mget st.domains i.domain with
      | some d => some (d, st.answerers)
      | none => do
          let te ← typeEnumDomain i.domain
          some (({ name := i.domain, services := [] } : DomainM),
                mput st.answerers te (.typeEnum i.domain))
    let (s, a2) ←
      match mget d.services i.serviceType with
      | some s => some (s, a1)
      | none => do
          let ie ← instanceEnumDomain i.serviceType i.domain
          some (({ type := i.serviceType, domain := i.domain, instances := [] } : ServiceM),
                mput a1 ie (.instanceEnum i.serviceType i.domain))
    let a3 ←
      match mget s.instances i.name with
      | some x => do
          let xt ← targetFQDN x
          some (mdel a2 xt)
      | none => some a2
    let ifq ← instFQDN i
    let tfq ← targetFQDN i
    let s2 : ServiceM := { s with instances := mput s.instances i.name i }
    let d2 : DomainM := { d with services := mput d.services i.serviceType s2 }
    some { domains := mput st.domains i.domain d2,
           answerers := mput (mput a3 ifq (.inst i)) tfq (.target i) }
  else none

/-- `Answerer.RemoveInstance(instance, service, domain)` (`none` = panic in
a name recomputation; never hit on states reachable through successful
adds). -/
def removeInstance (st : Registry) (instName svc dom : Str) : Option Registry :=
  match mget st.domains dom with
  | none => some st
  | some d =>
      match mget d.services svc with
      | none => some st
      | some s =>
          match mget s.instances instName with
          | none => some st
          | some i => do
              let tfq ← targetFQDN i
              let ifq ← instFQDN i
              let instances2 := mdel s.instances i.name
              let a1 := mdel (mdel st.answerers tfq) ifq
              let (services2, a2) ←
                if instances2 = [] then do
                  let ie ← instanceEnumDomain s.type s.domain
                  some (mdel d.services i.serviceType, mdel a1 ie)
                else
                  some (mput d.services svc { s with instances := instances2 }, a1)
              let (domains2, a3) ←
                if services2 = [] then do
                  let te ← typeEnumDomain d.name
                  some (mdel st.domains i.domain, mdel a2 te)
                else
                  some (mput st.domains dom { d with services := services2 }, a2)
              some { domains := domains2, answerers := a3 }

/-- One registry operation. -/
inductive Op : Type
  | add (i : Instance)
  | remove (instName svc dom : Str)
  deriving DecidableEq, Repr

def step (st : Registry) (op : Op) : Option Registry :=
  match op with
  | .add i => addInstance st i
  | .remove n s d => removeInstance st n s d

def runFrom (st : Registry) (ops : List Op) : Option Registry :=
  ops.foldlM step st

/-- Run a sequence of registry operations from the empty registry. -/
def run (ops : List Op) : Option Registry :=
  runFrom emptyRegistry ops

/-- The index content the claim describes: `k ↦ v` is justified by a live
instance `i` when `k` is one of `i`'s four derived FQDNs and `v` the
corresponding answerer. -/
def Expected (st : Registry) (k : Str) (v : AnswererV) : Prop :=
  ∃ dk d sk s ik i,
    (dk, d) ∈ st.domains ∧ (sk, s) ∈ d.services ∧ ((ik, i) : Str × Instance) ∈ s.instances ∧
    ((instanceEnumDomain i.serviceType i.domain = some k ∧
        v = .instanceEnum i.serviceType i.domain) ∨
     (typeEnumDomain i.domain = some k ∧ v = .typeEnum i.domain) ∨
     (instFQDN i = some k ∧ v = .inst i) ∨
     (targetFQDN i = some k ∧ v = .target i))

/-- C1's invariant: the index holds exactly the expected entries. -/
def IndexExact (st : Registry) : Prop :=
  ∀ k v, mget st.answerers k = some v ↔ Expected st k v

/-- All live services. -/
def svcList (st : Registry) : List ServiceM :=
  st.domains.flatMap fun e => e.2.services.map (·.2)

/-- All live instances. -/
def instListR (st : Registry) : List Instance :=
  st.domains.flatMap fun e => e.2.services.flatMap fun e2 => e2.2.instances.map (·.2)

/-- The expected index keys, one occurrence per live service (instance
enumeration), per live domain (type enumeration), and per live instance
(instance FQDN and target FQDN). -/
def allKeys (st : Registry) : List (Option Str) :=
  ((svcList st).map fun s => instanceEnumDomain s.type s.domain) ++
    (st.domains.map fun e => typeEnumDomain e.2.name) ++
    ((instListR st).map instFQDN) ++
    ((instListR st).map targetFQDN)

/-- The distinctness hypothesis of the amended claim: the expected keys
all compute and are pairwise distinct except where the claim itself
identifies them (instances of one service share its enumeration entry,
services of one domain share its type-enumeration entry). -/
def DK (st : Registry) : Prop :=
  (allKeys st).Nodup ∧ ∀ x ∈ allKeys st, x.isSome

instance (st : Registry) : Decidable (DK st) := by
  unfold DK
  infer_instance

/-- `true` iff every prefix of `ops` runs without panic and reaches a
state satisfying the distinctness condition `DK`. -/
def statesOK (ops : List Op) : Bool :=
  (List.range (ops.length + 1)).all fun n =>
    match run (ops.take n) with
    | none => false
    | some st => decide (DK st)

/-- Keys of an association map are pairwise distinct. -/
def keysNodup {β : Type} (m : List (Str × β)) : Prop :=
  (m.map (·.1)).Nodup

/-- Structural well-formedness the registry operations maintain. -/
def WF (st : Registry) : Prop :=
  keysNodup st.domains ∧ keysNodup st.answerers ∧
  ∀ dk d, (dk, d) ∈ st.domains →
    d.name = dk ∧ d.services ≠ [] ∧ keysNodup d.services ∧
    (typeEnumDomain d.name).isSome ∧
    ∀ sk s, (sk, s) ∈ d.services →
      s.type = sk ∧ s.domain = dk ∧ s.instances ≠ [] ∧ keysNodup s.instances ∧
      (instanceEnumDomain s.type s.domain).isSome ∧
      ∀ ik i, ((ik, i) : Str × Instance) ∈ s.instances →
        i.name = ik ∧ i.serviceType = sk ∧ i.domain = dk ∧
        (instFQDN i).isSome ∧ (targetFQDN i).isSome

def Inv (st : Registry) : Prop :=
  WF st ∧ IndexExact st

/-! ### Association-map helpers for the registry proofs -/

section MapHelpers

variable {β : Type}

theorem keysNodup_nil : keysNodup ([] : List (Str × β)) := by
  simp [keysNodup]

theorem keysNodup_mput {m : List (Str × β)} (h : keysNodup m) (k : Str) (v : β) :
    keysNodup (mput m k v) := by
  unfold keysNodup mput
  simp only [List.map_cons, List.nodup_cons]
  constructor
  · intro hk
    obtain ⟨e, he, hek⟩ := List.mem_map.mp hk
    have hne : e.1 ≠ k := by
      have hf := (List.mem_filter.mp he).2
      simpa using hf
    exact hne hek
  · exact h.sublist (List.Sublist.map _ (List.filter_sublist m))

theorem keysNodup_mdel {m : List (Str × β)} (h : keysNodup m) (k : Str) :
    keysNodup (mdel m k) :=
  h.sublist (List.Sublist.map _ (List.filter_sublist m))

theorem mem_keysNodup_eq {m : List (Str × β)} (h : keysNodup m) {k : Str} {a b : β}
    (ha : (k, a) ∈ m) (hb : (k, b) ∈ m) : a = b := by
  have heq := List.inj_on_of_nodup_map (f := fun e : Str × β => e.1) h ha hb rfl
  exact congrArg Prod.snd heq

end MapHelpers

/-! ### Justification and liveness helpers -/

/-- `k ↦ v` is one of instance `i`'s four expected index entries. -/
def JustKey (i : Instance) (k : Str) (v : AnswererV) : Prop :=
  (instanceEnumDomain i.serviceType i.domain = some k ∧
      v = .instanceEnum i.serviceType i.domain) ∨
  (typeEnumDomain i.domain = some k ∧ v = .typeEnum i.domain) ∨
  (instFQDN i = some k ∧ v = .inst i) ∨
  (targetFQDN i = some k ∧ v = .target i)

theorem expected_iff (st : Registry) (k : Str) (v : AnswererV) :
    Expected st k v ↔ ∃ i ∈ instListR st, JustKey i k v := by
  unfold Expected JustKey instListR
  constructor
  · rintro ⟨dk, d, sk, s, ik, i, hd, hs, hi, hj⟩
    refine ⟨i, ?_, hj⟩
    rw [List.mem_flatMap]
    exact ⟨(dk, d), hd, by
      rw [List.mem_flatMap]
      exact ⟨(sk, s), hs, List.mem_map.mpr ⟨(ik, i), hi, rfl⟩⟩⟩
  · rintro ⟨i, hmem, hj⟩
    rw [List.mem_flatMap] at hmem
    obtain ⟨⟨dk, d⟩, hd, hmem⟩ := hmem
    rw [List.mem_flatMap] at hmem
    obtain ⟨⟨sk, s⟩, hs, hmem⟩ := hmem
    obtain ⟨e, hi, hii⟩ := List.mem_map.mp hmem
    have he : (e.1, i) = e := by
      rw [← hii]
    rw [← he] at hi
    exact ⟨dk, d, sk, s, e.1, i, hd, hs, hi, hj⟩

theorem mem_svcList {st : Registry} {dk : Str} {d : DomainM} {sk : Str} {s : ServiceM}
    (hd : (dk, d) ∈ st.domains) (hs : (sk, s) ∈ d.services) : s ∈ svcList st := by
  unfold svcList
  rw [List.mem_flatMap]
  exact ⟨(dk, d), hd, List.mem_map.mpr ⟨(sk, s), hs, rfl⟩⟩

theorem mem_instListR {st : Registry} {dk : Str} {d : DomainM} {sk : Str} {s : ServiceM}
    {ik : Str} {i : Instance} (hd : (dk, d) ∈ st.domains) (hs : (sk, s) ∈ d.services)
    (hi : ((ik, i) : Str × Instance) ∈ s.instances) : i ∈ instListR st := by
  unfold instListR
  rw [List.mem_flatMap]
  refine ⟨(dk, d), hd, ?_⟩
  rw [List.mem_flatMap]
  exact ⟨(sk, s), hs, List.mem_map.mpr ⟨(ik, i), hi, rfl⟩⟩

/-- Under `WF`, an instance is stored exactly at the position its own
fields name. -/
theorem instListR_mem_pos {st : Registry} (hwf : WF st) {j : Instance}
    (hj : j ∈ instListR st) :
    ∃ d s, (j.domain, d) ∈ st.domains ∧ (j.serviceType, s) ∈ d.services ∧
      ((j.name, j) : Str × Instance) ∈ s.instances := by
  unfold instListR at hj
  rw [List.mem_flatMap] at hj
  obtain ⟨⟨dk, d⟩, hd, hj⟩ := hj
  rw [List.mem_flatMap] at hj
  obtain ⟨⟨sk, s⟩, hs, hj⟩ := hj
  obtain ⟨e, hi, hjj⟩ := List.mem_map.mp hj
  have he : (e.1, j) = e := by
    rw [← hjj]
  rw [← he] at hi
  obtain ⟨hname, hsvc, hdom, _, _⟩ :=
    ((hwf.2.2 dk d hd).2.2.2.2 sk s hs).2.2.2.2.2 e.1 j hi
  refine ⟨d, s, ?_, ?_, ?_⟩
  · rw [hdom]; exact hd
  · rw [hsvc]; exact hs
  · rw [hname]; exact hi

/-! ### Distinctness facts from `DK` -/

theorem dk_segments (st : Registry) (hdk : DK st) :
    (((svcList st).map fun s => instanceEnumDomain s.type s.domain)).Nodup ∧
    ((st.domains.map fun e => typeEnumDomain e.2.name)).Nodup ∧
    (((instListR st).map instFQDN)).Nodup ∧
    (((instListR st).map targetFQDN)).Nodup ∧
    (∀ x ∈ (svcList st).map fun s => instanceEnumDomain s.type s.domain,
      x ∉ st.domains.map fun e => typeEnumDomain e.2.name) ∧
    (∀ x ∈ (svcList st).map fun s => instanceEnumDomain s.type s.domain,
      x ∉ (instListR st).map instFQDN) ∧
    (∀ x ∈ (svcList st).map fun s => instanceEnumDomain s.type s.domain,
      x ∉ (instListR st).map targetFQDN) ∧
    (∀ x ∈ st.domains.map fun e => typeEnumDomain e.2.name,
      x ∉ (instListR st).map instFQDN) ∧
    (∀ x ∈ st.domains.map fun e => typeEnumDomain e.2.name,
      x ∉ (instListR st).map targetFQDN) ∧
    (∀ x ∈ (instListR st).map instFQDN, x ∉ (instListR st).map targetFQDN) := by
  have h := hdk.1
  unfold allKeys at h
  rw [List.append_assoc, List.append_assoc] at h
  rw [List.nodup_append] at h
  obtain ⟨hE, h, hdisj1⟩ := h
  rw [List.nodup_append] at h
  obtain ⟨hT, h, hdisj2⟩ := h
  rw [List.nodup_append] at h
  obtain ⟨hI, hG, hdisj3⟩ := h
  refine ⟨hE, hT, hI, hG, ?_, ?_, ?_, ?_, ?_, ?_⟩
  · intro x hx hmem
    exact hdisj1 hx (List.mem_append_left _ hmem)
  · intro x hx hmem
    exact hdisj1 hx (List.mem_append_right _ (List.mem_append_left _ hmem))
  · intro x hx hmem
    exact hdisj1 hx (List.mem_append_right _ (List.mem_append_right _ hmem))
  · intro x hx hmem
    exact hdisj2 hx (List.mem_append_left _ hmem)
  · intro x hx hmem
    exact hdisj2 hx (List.mem_append_right _ hmem)
  · intro x hx hmem
    exact hdisj3 hx hmem

theorem dk_ne_enum_enum {st : Registry} (hdk : DK st) {s1 s2 : ServiceM}
    (h1 : s1 ∈ svcList st) (h2 : s2 ∈ svcList st) (hne : s1 ≠ s2) :
    instanceEnumDomain s1.type s1.domain ≠ instanceEnumDomain s2.type s2.domain :=
  fun heq => hne (List.inj_on_of_nodup_map (dk_segments st hdk).1 h1 h2 heq)

theorem dk_ne_type_type {st : Registry} (hdk : DK st) {e1 e2 : Str × DomainM}
    (h1 : e1 ∈ st.domains) (h2 : e2 ∈ st.domains) (hne : e1 ≠ e2) :
    typeEnumDomain e1.2.name ≠ typeEnumDomain e2.2.name :=
  fun heq => hne (List.inj_on_of_nodup_map (dk_segments st hdk).2.1 h1 h2 heq)

theorem dk_ne_inst_inst {st : Registry} (hdk : DK st) {i j : Instance}
    (h1 : i ∈ instListR st) (h2 : j ∈ instListR st) (hne : i ≠ j) :
    instFQDN i ≠ instFQDN j :=
  fun heq => hne (List.inj_on_of_nodup_map (dk_segments st hdk).2.2.1 h1 h2 heq)

theorem dk_ne_targ_targ {st : Registry} (hdk : DK st) {i j : Instance}
    (h1 : i ∈ instListR st) (h2 : j ∈ instListR st) (hne : i ≠ j) :
    targetFQDN i ≠ targetFQDN j :=
  fun heq => hne (List.inj_on_of_nodup_map (dk_segments st hdk).2.2.2.1 h1 h2 heq)

theorem dk_ne_enum_type {st : Registry} (hdk : DK st) {s : ServiceM} {e : Str × DomainM}
    (hs : s ∈ svcList st) (he : e ∈ st.domains) :
    instanceEnumDomain s.type s.domain ≠ typeEnumDomain e.2.name :=
  fun heq =>
    (dk_segments st hdk).2.2.2.2.1 _ (List.mem_map.mpr ⟨s, hs, rfl⟩)
      (heq ▸ List.mem_map.mpr ⟨e, he, rfl⟩)

theorem dk_ne_enum_inst {st : Registry} (hdk : DK st) {s : ServiceM} {i : Instance}
    (hs : s ∈ svcList st) (hi : i ∈ instListR st) :
    instanceEnumDomain s.type s.domain ≠ instFQDN i :=
  fun heq =>
    (dk_segments st hdk).2.2.2.2.2.1 _ (List.mem_map.mpr ⟨s, hs, rfl⟩)
      (heq ▸ List.mem_map.mpr ⟨i, hi, rfl⟩)

theorem dk_ne_enum_targ {st : Registry} (hdk : DK st) {s : ServiceM} {i : Instance}
    (hs : s ∈ svcList st) (hi : i ∈ instListR st) :
    instanceEnumDomain s.type s.domain ≠ targetFQDN i :=
  fun heq =>
    (dk_segments st hdk).2.2.2.2.2.2.1 _ (List.mem_map.mpr ⟨s, hs, rfl⟩)
      (heq ▸ List.mem_map.mpr ⟨i, hi, rfl⟩)

theorem dk_ne_type_inst {st : Registry} (hdk : DK st) {e : Str × DomainM} {i : Instance}
    (he : e ∈ st.domains) (hi : i ∈ instListR st) :
    typeEnumDomain e.2.name ≠ instFQDN i :=
  fun heq =>
    (dk_segments st hdk).2.2.2.2.2.2.2.1 _ (List.mem_map.mpr ⟨e, he, rfl⟩)
      (heq ▸ List.mem_map.mpr ⟨i, hi, rfl⟩)

theorem dk_ne_type_targ {st : Registry} (hdk : DK st) {e : Str × DomainM} {i : Instance}
    (he : e ∈ st.domains) (hi : i ∈ instListR st) :
    typeEnumDomain e.2.name ≠ targetFQDN i :=
  fun heq =>
    (dk_segments st hdk).2.2.2.2.2.2.2.2.1 _ (List.mem_map.mpr ⟨e, he, rfl⟩)
      (heq ▸ List.mem_map.mpr ⟨i, hi, rfl⟩)

theorem dk_ne_inst_targ {st : Registry} (hdk : DK st) {i j : Instance}
    (hi : i ∈ instListR st) (hj : j ∈ instListR st) :
    instFQDN i ≠ targetFQDN j :=
  fun heq =>
    (dk_segments st hdk).2.2.2.2.2.2.2.2.2 _ (List.mem_map.mpr ⟨i, hi, rfl⟩)
      (heq ▸ List.mem_map.mpr ⟨j, hj, rfl⟩)

/-! ### The effect of `AddInstance` on the tree -/

section AddShape

variable (st : Registry) (i : Instance) (d : DomainM) (s : ServiceM)

/-- The updated service, domain and domain map written by `AddInstance`. -/
def addS2 : ServiceM := { s with instances := mput s.instances i.name i }

def addD2 : DomainM := { d with services := mput d.services i.serviceType (addS2 i s) }

def addDomains : List (Str × DomainM) := mput st.domains i.domain (addD2 i d s)

variable {st i d s}

/-- The two ways `AddInstance` obtains the domain record. -/
def DomShape : Prop :=
  mget st.domains i.domain = some d ∨
    (mget st.domains i.domain = none ∧ d = ⟨i.domain, []⟩)

/-- The two ways `AddInstance` obtains the service record. -/
def SvcShape : Prop :=
  mget d.services i.serviceType = some s ∨
    (mget d.services i.serviceType = none ∧ s = ⟨i.serviceType, i.domain, []⟩)

theorem domShape_name (hwf : WF st) (hd : @DomShape st i d) : d.name = i.domain := by
  rcases hd with hd | ⟨_, rfl⟩
  · exact (hwf.2.2 i.domain d (mget_mem _ _ _ hd)).1
  · rfl

theorem domShape_nodup (hwf : WF st) (hd : @DomShape st i d) : keysNodup d.services := by
  rcases hd with hd | ⟨_, rfl⟩
  · exact (hwf.2.2 i.domain d (mget_mem _ _ _ hd)).2.2.1
  · exact keysNodup_nil

theorem svcShape_type (hwf : WF st) (hd : @DomShape st i d) (hs : @SvcShape i d s) :
    s.type = i.serviceType := by
  rcases hs with hs | ⟨_, rfl⟩
  · rcases hd with hd | ⟨_, rfl⟩
    · exact ((hwf.2.2 i.domain d (mget_mem _ _ _ hd)).2.2.2.2 i.serviceType s
        (mget_mem _ _ _ hs)).1
    · simp [mget] at hs
  · rfl

theorem svcShape_domain (hwf : WF st) (hd : @DomShape st i d) (hs : @SvcShape i d s) :
    s.domain = i.domain := by
  rcases hs with hs | ⟨_, rfl⟩
  · rcases hd with hd | ⟨_, rfl⟩
    · exact ((hwf.2.2 i.domain d (mget_mem _ _ _ hd)).2.2.2.2 i.serviceType s
        (mget_mem _ _ _ hs)).2.1
    · simp [mget] at hs
  · rfl

theorem svcShape_nodup (hwf : WF st) (hd : @DomShape st i d) (hs : @SvcShape i d s) :
    keysNodup s.instances := by
  rcases hs with hs | ⟨_, rfl⟩
  · rcases hd with hd | ⟨_, rfl⟩
    · exact ((hwf.2.2 i.domain d (mget_mem _ _ _ hd)).2.2.2.2 i.serviceType s
        (mget_mem _ _ _ hs)).2.2.2.1
    · simp [mget] at hs
  · exact keysNodup_nil

end AddShape

theorem wf_add {st : Registry} {i : Instance} {d : DomainM} {s : ServiceM}
    (hwf : WF st) (hd : @DomShape st i d) (hs : @SvcShape i d s)
    (hifq : (instFQDN i).isSome) (htfq : (targetFQDN i).isSome)
    (hte : (typeEnumDomain i.domain).isSome)
    (hie : (instanceEnumDomain i.serviceType i.domain).isSome)
    {ans' : List (Str × AnswererV)} (hka : keysNodup ans') :
    WF ⟨addDomains st i d s, ans'⟩ := by
  have hdn := domShape_name hwf hd
  have hdnd := domShape_nodup hwf hd
  have hst := svcShape_type hwf hd hs
  have hsd := svcShape_domain hwf hd hs
  have hsnd := svcShape_nodup hwf hd hs
  refine ⟨keysNodup_mput hwf.1 _ _, hka, ?_⟩
  intro dk d' hmem
  rw [show (⟨addDomains st i d s, ans'⟩ : Registry).domains = addDomains st i d s from rfl,
    addDomains] at hmem
  rcases (mem_mput _ _ _ _).mp hmem with heq | ⟨hold, hne⟩
  · injection heq with hdk hd'
    subst hdk
    subst hd'
    refine ⟨hdn, by simp [addD2, mput], keysNodup_mput hdnd _ _, ?_, ?_⟩
    · show (typeEnumDomain d.name).isSome
      rw [hdn]
      exact hte
    · intro sk s' hmem2
      rw [show (addD2 i d s).services = mput d.services i.serviceType (addS2 i s) from rfl]
        at hmem2
      rcases (mem_mput _ _ _ _).mp hmem2 with heq2 | ⟨hold2, hne2⟩
      · injection heq2 with hsk hs'
        subst hsk
        subst hs'
        refine ⟨hst, hsd, by simp [addS2, mput], keysNodup_mput hsnd _ _, ?_, ?_⟩
        · show (instanceEnumDomain s.type s.domain).isSome
          rw [hst, hsd]
          exact hie
        · intro ik i' hmem3
          rw [show (addS2 i s).instances = mput s.instances i.name i from rfl] at hmem3
          rcases (mem_mput _ _ _ _).mp hmem3 with heq3 | ⟨hold3, hne3⟩
          · injection heq3 with hik hi'
            subst hik
            subst hi'
            exact ⟨rfl, rfl, rfl, hifq, htfq⟩
          · rcases hs with hsfound | ⟨_, hfresh⟩
            · rcases hd with hdfound | ⟨_, hdfresh⟩
              · have hw3 :=
                  ((hwf.2.2 i.domain d (mget_mem _ _ _ hdfound)).2.2.2.2 i.serviceType s
                    (mget_mem _ _ _ hsfound)).2.2.2.2.2 ik i' hold3
                exact ⟨hw3.1, hw3.2.1, hw3.2.2.1, hw3.2.2.2⟩
              · rw [hdfresh] at hsfound
                simp [mget] at hsfound
            · rw [hfresh] at hold3
              simp at hold3
      · rcases hd with hdfound | ⟨_, hdfresh⟩
        · exact (hwf.2.2 i.domain d (mget_mem _ _ _ hdfound)).2.2.2.2 sk s' hold2
        · rw [hdfresh] at hold2
          simp at hold2
  · exact hwf.2.2 dk d' hold

theorem instListR_mem_posAny {st : Registry} {j : Instance} (hj : j ∈ instListR st) :
    ∃ dk d sk s ik, (dk, d) ∈ st.domains ∧ (sk, s) ∈ d.services ∧
      ((ik, j) : Str × Instance) ∈ s.instances := by
  unfold instListR at hj
  rw [List.mem_flatMap] at hj
  obtain ⟨⟨dk, d⟩, hd, hj⟩ := hj
  rw [List.mem_flatMap] at hj
  obtain ⟨⟨sk, s⟩, hs, hj⟩ := hj
  obtain ⟨e, hi, hjj⟩ := List.mem_map.mp hj
  have he : (e.1, j) = e := by
    rw [← hjj]
  rw [← he] at hi
  exact ⟨dk, d, sk, s, e.1, hd, hs, hi⟩

/-- The live instances after `AddInstance`: `i` joins, the instance that
occupied `i`'s slot (same domain, type and name) leaves, everything else
stays. -/
theorem instListR_add {st : Registry} {i : Instance} {d : DomainM} {s : ServiceM}
    (hwf : WF st) (hd : @DomShape st i d) (hs : @SvcShape i d s)
    (ans' : List (Str × AnswererV)) (j : Instance) :
    j ∈ instListR ⟨addDomains st i d s, ans'⟩ ↔
      j = i ∨ (j ∈ instListR st ∧
        ¬(j.domain = i.domain ∧ j.serviceType = i.serviceType ∧ j.name = i.name)) := by
  constructor
  · intro hj
    obtain ⟨dk, d', sk, s', ik, hd', hs', hi'⟩ := instListR_mem_posAny hj
    rw [show (⟨addDomains st i d s, ans'⟩ : Registry).domains = addDomains st i d s from rfl,
      addDomains] at hd'
    rcases (mem_mput _ _ _ _).mp hd' with heq | ⟨holdD, hneD⟩
    · injection heq with hdk hdd
      subst hdk
      subst hdd
      rw [show (addD2 i d s).services = mput d.services i.serviceType (addS2 i s) from rfl]
        at hs'
      rcases (mem_mput _ _ _ _).mp hs' with heq2 | ⟨holdS, hneS⟩
      · injection heq2 with hsk hss
        subst hsk
        subst hss
        rw [show (addS2 i s).instances = mput s.instances i.name i from rfl] at hi'
        rcases (mem_mput _ _ _ _).mp hi' with heq3 | ⟨holdI, hneI⟩
        · injection heq3 with _ hji
          exact Or.inl hji
        · rcases hs with hsfound | ⟨_, hfresh⟩
          · rcases hd with hdfound | ⟨_, hdfresh⟩
            · have hdm := mget_mem _ _ _ hdfound
              have hsm := mget_mem _ _ _ hsfound
              have hw3 := ((hwf.2.2 i.domain d hdm).2.2.2.2 i.serviceType s
                hsm).2.2.2.2.2 ik j holdI
              refine Or.inr ⟨mem_instListR hdm hsm holdI, ?_⟩
              rintro ⟨_, _, hname⟩
              refine hneI ?_
              show ik = i.name
              rw [← hw3.1]
              exact hname
            · rw [hdfresh] at hsfound
              simp [mget] at hsfound
          · rw [hfresh] at holdI
            simp at holdI
      · rcases hd with hdfound | ⟨_, hdfresh⟩
        · have hdm := mget_mem _ _ _ hdfound
          have hw2 := (hwf.2.2 i.domain d hdm).2.2.2.2 sk s' holdS
          have hw3 := hw2.2.2.2.2.2 ik j hi'
          refine Or.inr ⟨mem_instListR hdm holdS hi', ?_⟩
          rintro ⟨_, hsvc, _⟩
          refine hneS ?_
          show sk = i.serviceType
          rw [← hw3.2.1]
          exact hsvc
        · rw [hdfresh] at holdS
          simp at holdS
    · have hwd := hwf.2.2 dk d' holdD
      have hw2 := hwd.2.2.2.2 sk s' hs'
      have hw3 := hw2.2.2.2.2.2 ik j hi'
      refine Or.inr ⟨mem_instListR holdD hs' hi', ?_⟩
      rintro ⟨hdom, _, _⟩
      refine hneD ?_
      show dk = i.domain
      rw [← hw3.2.2.1]
      exact hdom
  · intro hj
    rcases hj with rfl | ⟨hmem, htriple⟩
    · have h1 : (j.domain, addD2 j d s) ∈
          (⟨addDomains st j d s, ans'⟩ : Registry).domains :=
        (mem_mput _ _ _ _).mpr (Or.inl rfl)
      have h2 : (j.serviceType, addS2 j s) ∈ (addD2 j d s).services :=
        (mem_mput _ _ _ _).mpr (Or.inl rfl)
      have h3 : ((j.name, j) : Str × Instance) ∈ (addS2 j s).instances :=
        (mem_mput _ _ _ _).mpr (Or.inl rfl)
      exact mem_instListR h1 h2 h3
    · obtain ⟨dj, sj, hdj, hsj, hij⟩ := instListR_mem_pos hwf hmem
      by_cases hdomEq : j.domain = i.domain
      · have hdjd : dj = d := by
          rcases hd with hdfound | ⟨hdnone, _⟩
          · have := mget_mem _ _ _ hdfound
            rw [hdomEq] at hdj
            exact mem_keysNodup_eq hwf.1 hdj this
          · rw [mget_eq_none] at hdnone
            rw [hdomEq] at hdj
            exact absurd rfl (hdnone (i.domain, dj) hdj)
        rw [hdjd] at hsj
        by_cases hsvcEq : j.serviceType = i.serviceType
        · have hsjs : sj = s := by
            rcases hs with hsfound | ⟨hsnone, _⟩
            · have := mget_mem _ _ _ hsfound
              rw [hsvcEq] at hsj
              exact mem_keysNodup_eq (domShape_nodup hwf hd) hsj this
            · rw [mget_eq_none] at hsnone
              rw [hsvcEq] at hsj
              exact absurd rfl (hsnone (i.serviceType, sj) hsj)
          rw [hsjs] at hij
          have hnameNe : j.name ≠ i.name := by
            intro hn
            exact htriple ⟨hdomEq, hsvcEq, hn⟩
          have h1 : (i.domain, addD2 i d s) ∈
              (⟨addDomains st i d s, ans'⟩ : Registry).domains :=
            (mem_mput _ _ _ _).mpr (Or.inl rfl)
          have h2 : (i.serviceType, addS2 i s) ∈ (addD2 i d s).services :=
            (mem_mput _ _ _ _).mpr (Or.inl rfl)
          have h3 : ((j.name, j) : Str × Instance) ∈ (addS2 i s).instances :=
            (mem_mput _ _ _ _).mpr (Or.inr ⟨hij, hnameNe⟩)
          exact mem_instListR h1 h2 h3
        · have h1 : (i.domain, addD2 i d s) ∈
              (⟨addDomains st i d s, ans'⟩ : Registry).domains :=
            (mem_mput _ _ _ _).mpr (Or.inl rfl)
          have h2 : (j.serviceType, sj) ∈ (addD2 i d s).services :=
            (mem_mput _ _ _ _).mpr (Or.inr ⟨hsj, hsvcEq⟩)
          exact mem_instListR h1 h2 hij
      · have h1 : (j.domain, dj) ∈
            (⟨addDomains st i d s, ans'⟩ : Registry).domains :=
          (mem_mput _ _ _ _).mpr (Or.inr ⟨hdj, hdomEq⟩)
        exact mem_instListR h1 hsj hij

/-- The four control paths of `AddInstance`, each with the index list it
builds before the final instance/target insertions: replace an existing
instance (deleting the old target entry), plain insert into an existing
service, create the service (inserting its enumeration entry), or create
domain and service (inserting both enumeration entries). -/
inductive AddChain (st : Registry) (i : Instance) (d : DomainM) (s : ServiceM) :
    List (Str × AnswererV) → Prop
  | replace (x : Instance) (xt : Str)
      (hdom : mget st.domains i.domain = some d)
      (hsvc : mget d.services i.serviceType = some s)
      (hx : mget s.instances i.name = some x)
      (hxt : targetFQDN x = some xt) :
      AddChain st i d s (mdel st.answerers xt)
  | plain
      (hdom : mget st.domains i.domain = some d)
      (hsvc : mget d.services i.serviceType = some s)
      (hx : mget s.instances i.name = none) :
      AddChain st i d s st.answerers
  | newService (ie : Str)
      (hdom : mget st.domains i.domain = some d)
      (hsvc : mget d.services i.serviceType = none)
      (hsfresh : s = ⟨i.serviceType, i.domain, []⟩)
      (hie : instanceEnumDomain i.serviceType i.domain = some ie) :
      AddChain st i d s (mput st.answerers ie (.instanceEnum i.serviceType i.domain))
  | newDomain (te ie : Str)
      (hdom : mget st.domains i.domain = none)
      (hdfresh : d = ⟨i.domain, []⟩)
      (hsfresh : s = ⟨i.serviceType, i.domain, []⟩)
      (hte : typeEnumDomain i.domain = some te)
      (hie : instanceEnumDomain i.serviceType i.domain = some ie) :
      AddChain st i d s
        (mput (mput st.answerers te (.typeEnum i.domain)) ie
          (.instanceEnum i.serviceType i.domain))

theorem addChain_domShape {st : Registry} {i : Instance} {d : DomainM} {s : ServiceM}
    {a3 : List (Str × AnswererV)} (h : AddChain st i d s a3) : @DomShape st i d := by
  cases h with
  | replace x xt hdom _ _ _ => exact Or.inl hdom
  | plain hdom _ _ => exact Or.inl hdom
  | newService ie hdom _ _ _ => exact Or.inl hdom
  | newDomain te ie hdom hdfresh _ _ _ => exact Or.inr ⟨hdom, hdfresh⟩

theorem addChain_svcShape {st : Registry} {i : Instance} {d : DomainM} {s : ServiceM}
    {a3 : List (Str × AnswererV)} (h : AddChain st i d s a3) : @SvcShape i d s := by
  cases h with
  | replace x xt _ hsvc _ _ => exact Or.inl hsvc
  | plain _ hsvc _ => exact Or.inl hsvc
  | newService ie _ hsvc hsfresh _ => exact Or.inr ⟨hsvc, hsfresh⟩
  | newDomain te ie _ hdfresh hsfresh _ _ =>
      refine Or.inr ⟨?_, hsfresh⟩
      rw [hdfresh]
      rfl

theorem instFQDN_congr {a b : Instance} (h1 : a.name = b.name)
    (h2 : a.serviceType = b.serviceType) (h3 : a.domain = b.domain) :
    instFQDN a = instFQDN b := by
  unfold instFQDN instanceNameString serviceTypeString
  rw [h1, h2, h3]

theorem index_add_fwd
    {st : Registry} {i : Instance} {d : DomainM} {s : ServiceM}
    {a3 : List (Str × AnswererV)} {ifq tfq : Str}
    (hwf : WF st) (hix : IndexExact st)
    (hifq : instFQDN i = some ifq) (htfq : targetFQDN i = some tfq)
    (hchain : AddChain st i d s a3)
    (k : Str) (v : AnswererV)
    (hlk : mget (mput (mput a3 ifq (.inst i)) tfq (.target i)) k = some v) :
    Expected ⟨addDomains st i d s,
      mput (mput a3 ifq (.inst i)) tfq (.target i)⟩ k v := by
  have hd := addChain_domShape hchain
  have hs := addChain_svcShape hchain
  have h1 : (i.domain, addD2 i d s) ∈
      (⟨addDomains st i d s, mput (mput a3 ifq (.inst i)) tfq (.target i)⟩ :
        Registry).domains :=
    (mem_mput _ _ _ _).mpr (Or.inl rfl)
  have h2 : (i.serviceType, addS2 i s) ∈ (addD2 i d s).services :=
    (mem_mput _ _ _ _).mpr (Or.inl rfl)
  have h3 : ((i.name, i) : Str × Instance) ∈ (addS2 i s).instances :=
    (mem_mput _ _ _ _).mpr (Or.inl rfl)
  have hliveI := mem_instListR h1 h2 h3
  have hExpI : ∀ {k' : Str} {v' : AnswererV}, JustKey i k' v' →
      Expected ⟨addDomains st i d s,
        mput (mput a3 ifq (.inst i)) tfq (.target i)⟩ k' v' := by
    intro k' v' hjk
    rw [expected_iff]
    exact ⟨i, hliveI, hjk⟩
  by_cases hk_tfq : k = tfq
  · subst hk_tfq
    rw [mget_mput_self] at hlk
    injection hlk with hv
    exact hExpI (Or.inr (Or.inr (Or.inr ⟨htfq, hv.symm⟩)))
  · rw [mget_mput_ne _ _ _ _ hk_tfq] at hlk
    by_cases hk_ifq : k = ifq
    · subst hk_ifq
      rw [mget_mput_self] at hlk
      injection hlk with hv
      exact hExpI (Or.inr (Or.inr (Or.inl ⟨hifq, hv.symm⟩)))
    · rw [mget_mput_ne _ _ _ _ hk_ifq] at hlk
      have htrans :
          (∀ x xt, mget s.instances i.name = some x → targetFQDN x = some xt →
            k ≠ xt) →
          mget st.answerers k = some v →
          Expected ⟨addDomains st i d s,
            mput (mput a3 ifq (.inst i)) tfq (.target i)⟩ k v := by
        intro hxk hold
        have hexp := (hix k v).mp hold
        rw [expected_iff] at hexp
        obtain ⟨j, hjlive, hjk⟩ := hexp
        by_cases htrip : j.domain = i.domain ∧ j.serviceType = i.serviceType ∧
            j.name = i.name
        · obtain ⟨dj, sj, hdj, hsj, hij⟩ := instListR_mem_pos hwf hjlive
          rw [htrip.1] at hdj
          rw [htrip.2.1] at hsj
          rw [htrip.2.2] at hij
          cases hchain with
          | replace x xt hdom hsvc hx hxt =>
              have hdjd : dj = d :=
                mem_keysNodup_eq hwf.1 hdj (mget_mem _ _ _ hdom)
              rw [hdjd] at hsj
              have hsjs : sj = s :=
                mem_keysNodup_eq (domShape_nodup hwf hd) hsj (mget_mem _ _ _ hsvc)
              rw [hsjs] at hij
              have hjx : j = x :=
                mem_keysNodup_eq (svcShape_nodup hwf hd hs) hij (mget_mem _ _ _ hx)
              rcases hjk with ⟨hk1, hv1⟩ | ⟨hk1, hv1⟩ | ⟨hk1, hv1⟩ | ⟨hk1, hv1⟩
              · refine hExpI (Or.inl ⟨?_, ?_⟩)
                · rw [← htrip.2.1, ← htrip.1]
                  exact hk1
                · rw [hv1, htrip.2.1, htrip.1]
              · refine hExpI (Or.inr (Or.inl ⟨?_, ?_⟩))
                · rw [← htrip.1]
                  exact hk1
                · rw [hv1, htrip.1]
              · exfalso
                have : instFQDN i = some k := by
                  rw [← instFQDN_congr htrip.2.2 htrip.2.1 htrip.1]
                  exact hk1
                rw [hifq] at this
                injection this with hthis
                exact hk_ifq hthis.symm
              · exfalso
                rw [hjx] at hk1
                exact hxk x k hx hk1 rfl
          | plain hdom hsvc hx =>
              exfalso
              have hdjd : dj = d :=
                mem_keysNodup_eq hwf.1 hdj (mget_mem _ _ _ hdom)
              rw [hdjd] at hsj
              have hsjs : sj = s :=
                mem_keysNodup_eq (domShape_nodup hwf hd) hsj (mget_mem _ _ _ hsvc)
              rw [hsjs] at hij
              rw [mget_eq_none] at hx
              exact hx (i.name, j) hij rfl
          | newService ie hdom hsvc hsfresh hie =>
              exfalso
              have hdjd : dj = d :=
                mem_keysNodup_eq hwf.1 hdj (mget_mem _ _ _ hdom)
              rw [hdjd] at hsj
              rw [mget_eq_none] at hsvc
              exact hsvc (i.serviceType, sj) hsj rfl
          | newDomain te ie hdom hdfresh hsfresh hte hie =>
              exfalso
              rw [mget_eq_none] at hdom
              exact hdom (i.domain, dj) hdj rfl
        · have hjlive' := (instListR_add hwf hd hs
            (mput (mput a3 ifq (.inst i)) tfq (.target i)) j).mpr
            (Or.inr ⟨hjlive, htrip⟩)
          rw [expected_iff]
          exact ⟨j, hjlive', hjk⟩
      cases hchain with
      | replace x xt hdom hsvc hx hxt =>
          by_cases hk_xt : k = xt
          · rw [hk_xt, mget_mdel_self] at hlk
            cases hlk
          · rw [mget_mdel_ne _ _ _ hk_xt] at hlk
            refine htrans ?_ hlk
            intro x' xt' hx' hxt'
            rw [hx] at hx'
            injection hx' with hxx
            rw [← hxx] at hxt'
            rw [hxt] at hxt'
            injection hxt' with hxteq
            rw [← hxteq]
            exact hk_xt
      | plain hdom hsvc hx =>
          refine htrans ?_ hlk
          intro x' xt' hx' _
          rw [hx] at hx'
          cases hx'
      | newService ie hdom hsvc hsfresh hie =>
          by_cases hk_ie : k = ie
          · subst hk_ie
            rw [mget_mput_self] at hlk
            injection hlk with hv
            exact hExpI (Or.inl ⟨hie, hv.symm⟩)
          · rw [mget_mput_ne _ _ _ _ hk_ie] at hlk
            refine htrans ?_ hlk
            intro x' xt' hx' _
            rw [hsfresh] at hx'
            simp [mget] at hx'
      | newDomain te ie hdom hdfresh hsfresh hte hie =>
          by_cases hk_ie : k = ie
          · subst hk_ie
            rw [mget_mput_self] at hlk
            injection hlk with hv
            exact hExpI (Or.inl ⟨hie, hv.symm⟩)
          · rw [mget_mput_ne _ _ _ _ hk_ie] at hlk
            by_cases hk_te : k = te
            · subst hk_te
              rw [mget_mput_self] at hlk
              injection hlk with hv
              exact hExpI (Or.inr (Or.inl ⟨hte, hv.symm⟩))
            · rw [mget_mput_ne _ _ _ _ hk_te] at hlk
              refine htrans ?_ hlk
              intro x' xt' hx' _
              rw [hsfresh] at hx'
              simp [mget] at hx'

theorem some_ne_of {γ : Type} {a b : γ} (h : (some a : Option γ) ≠ some b) : a ≠ b :=
  fun hab => h (by rw [hab])

theorem index_add_bwd
    {st : Registry} {i : Instance} {d : DomainM} {s : ServiceM}
    {a3 : List (Str × AnswererV)} {ifq tfq : Str}
    (hwf : WF st) (hix : IndexExact st) (hdk : DK st)
    (hifq : instFQDN i = some ifq) (htfq : targetFQDN i = some tfq)
    (hchain : AddChain st i d s a3)
    (hwf' : WF ⟨addDomains st i d s, mput (mput a3 ifq (.inst i)) tfq (.target i)⟩)
    (hdk' : DK ⟨addDomains st i d s, mput (mput a3 ifq (.inst i)) tfq (.target i)⟩)
    (k : Str) (v : AnswererV)
    (hexp : Expected ⟨addDomains st i d s,
      mput (mput a3 ifq (.inst i)) tfq (.target i)⟩ k v) :
    mget (mput (mput a3 ifq (.inst i)) tfq (.target i)) k = some v := by
  have hd := addChain_domShape hchain
  have hs := addChain_svcShape hchain
  have hdn := domShape_name hwf hd
  have hst := svcShape_type hwf hd hs
  have hsd := svcShape_domain hwf hd hs
  have h1 : (i.domain, addD2 i d s) ∈
      (⟨addDomains st i d s, mput (mput a3 ifq (.inst i)) tfq (.target i)⟩ :
        Registry).domains :=
    (mem_mput _ _ _ _).mpr (Or.inl rfl)
  have h2 : (i.serviceType, addS2 i s) ∈ (addD2 i d s).services :=
    (mem_mput _ _ _ _).mpr (Or.inl rfl)
  have h3 : ((i.name, i) : Str × Instance) ∈ (addS2 i s).instances :=
    (mem_mput _ _ _ _).mpr (Or.inl rfl)
  have hliveI := mem_instListR h1 h2 h3
  have hs2 := mem_svcList h1 h2
  have hS2t : (addS2 i s).type = i.serviceType := hst
  have hS2d : (addS2 i s).domain = i.domain := hsd
  have hD2n : (addD2 i d s).name = i.domain := hdn
  -- the final lookup once the chain has been crossed
  have hpass : ∀ k' : Str,
      (∀ x xt, mget s.instances i.name = some x → targetFQDN x = some xt → k' ≠ xt) →
      (∀ ie, mget d.services i.serviceType = none →
        instanceEnumDomain i.serviceType i.domain = some ie → k' ≠ ie) →
      (∀ te, mget st.domains i.domain = none →
        typeEnumDomain i.domain = some te → k' ≠ te) →
      mget a3 k' = mget st.answerers k' := by
    intro k' hA hB hC
    cases hchain with
    | replace x xt hdom hsvc hx hxt =>
        exact mget_mdel_ne _ _ _ (hA x xt hx hxt)
    | plain hdom hsvc hx => rfl
    | newService ie hdom hsvc hsfresh hie =>
        exact mget_mput_ne _ _ _ _ (hB ie hsvc hie)
    | newDomain te ie hdom hdfresh hsfresh hte hie =>
        have hsvc : mget d.services i.serviceType = none := by
          rw [hdfresh]
          rfl
        rw [mget_mput_ne _ _ _ _ (hB ie hsvc hie),
          mget_mput_ne _ _ _ _ (hC te hdom hte)]
  -- lookup of the service enumeration entry of i
  have lemA : ∀ k', instanceEnumDomain i.serviceType i.domain = some k' →
      mget (mput (mput a3 ifq (.inst i)) tfq (.target i)) k' =
        some (.instanceEnum i.serviceType i.domain) := by
    intro k' hk'
    have hne1 := dk_ne_enum_targ hdk' hs2 hliveI
    rw [show (addS2 i s).type = s.type from rfl, show (addS2 i s).domain = s.domain from rfl,
      hst, hsd, hk', htfq] at hne1
    have hne2 := dk_ne_enum_inst hdk' hs2 hliveI
    rw [show (addS2 i s).type = s.type from rfl, show (addS2 i s).domain = s.domain from rfl,
      hst, hsd, hk', hifq] at hne2
    rw [mget_mput_ne _ _ _ _ (some_ne_of hne1), mget_mput_ne _ _ _ _ (some_ne_of hne2)]
    cases hchain with
    | replace x xt hdom hsvc hx hxt =>
        have hdm := mget_mem _ _ _ hdom
        have hsm := mget_mem _ _ _ hsvc
        have hxm := mget_mem _ _ _ hx
        have hxlive := mem_instListR hdm hsm hxm
        have hssvc := mem_svcList hdm hsm
        have hne3 := dk_ne_enum_targ hdk hssvc hxlive
        rw [hst, hsd, hk', hxt] at hne3
        rw [mget_mdel_ne _ _ _ (some_ne_of hne3)]
        have hwx := ((hwf.2.2 i.domain d hdm).2.2.2.2 i.serviceType s hsm).2.2.2.2.2
          i.name x hxm
        refine (hix k' _).mpr ?_
        rw [expected_iff]
        refine ⟨x, hxlive, Or.inl ⟨?_, ?_⟩⟩
        · rw [hwx.2.1, hwx.2.2.1]
          exact hk'
        · rw [hwx.2.1, hwx.2.2.1]
    | plain hdom hsvc hx =>
        have hdm := mget_mem _ _ _ hdom
        have hsm := mget_mem _ _ _ hsvc
        have hwsv := (hwf.2.2 i.domain d hdm).2.2.2.2 i.serviceType s hsm
        obtain ⟨e0, he0⟩ := List.exists_mem_of_ne_nil _ hwsv.2.2.1
        have he0' : ((e0.1, e0.2) : Str × Instance) ∈ s.instances := he0
        have hw0 := hwsv.2.2.2.2.2 e0.1 e0.2 he0'
        have h0live := mem_instListR hdm hsm he0'
        refine (hix k' _).mpr ?_
        rw [expected_iff]
        refine ⟨e0.2, h0live, Or.inl ⟨?_, ?_⟩⟩
        · rw [hw0.2.1, hw0.2.2.1]
          exact hk'
        · rw [hw0.2.1, hw0.2.2.1]
    | newService ie hdom hsvc hsfresh hie =>
        rw [hie] at hk'
        injection hk' with hk'
        rw [← hk', mget_mput_self]
    | newDomain te ie hdom hdfresh hsfresh hte hie =>
        rw [hie] at hk'
        injection hk' with hk'
        rw [← hk', mget_mput_self]
  -- lookup of the type enumeration entry of i
  have lemB : ∀ k', typeEnumDomain i.domain = some k' →
      mget (mput (mput a3 ifq (.inst i)) tfq (.target i)) k' =
        some (.typeEnum i.domain) := by
    intro k' hk'
    have hne1 := dk_ne_type_targ hdk' h1 hliveI
    rw [show ((i.domain, addD2 i d s) : Str × DomainM).2.name = d.name from rfl,
      hdn, hk', htfq] at hne1
    have hne2 := dk_ne_type_inst hdk' h1 hliveI
    rw [show ((i.domain, addD2 i d s) : Str × DomainM).2.name = d.name from rfl,
      hdn, hk', hifq] at hne2
    rw [mget_mput_ne _ _ _ _ (some_ne_of hne1), mget_mput_ne _ _ _ _ (some_ne_of hne2)]
    have hviaDom : mget st.domains i.domain = some d →
        mget st.answerers k' = some (.typeEnum i.domain) := by
      intro hdom
      have hdm := mget_mem _ _ _ hdom
      have hwd := hwf.2.2 i.domain d hdm
      obtain ⟨es, hes⟩ := List.exists_mem_of_ne_nil _ hwd.2.1
      have hes' : ((es.1, es.2) : Str × ServiceM) ∈ d.services := hes
      have hwsv := hwd.2.2.2.2 es.1 es.2 hes'
      obtain ⟨e0, he0⟩ := List.exists_mem_of_ne_nil _ hwsv.2.2.1
      have he0' : ((e0.1, e0.2) : Str × Instance) ∈ es.2.instances := he0
      have hw0 := hwsv.2.2.2.2.2 e0.1 e0.2 he0'
      have h0live := mem_instListR hdm hes' he0'
      refine (hix k' _).mpr ?_
      rw [expected_iff]
      refine ⟨e0.2, h0live, Or.inr (Or.inl ⟨?_, ?_⟩)⟩
      · rw [hw0.2.2.1]
        exact hk'
      · rw [hw0.2.2.1]
    have hieNEte : ∀ ie, instanceEnumDomain i.serviceType i.domain = some ie →
        k' ≠ ie := by
      intro ie hie hkie
      have hne3 := dk_ne_enum_type hdk' hs2 h1
      rw [show (addS2 i s).type = s.type from rfl,
        show (addS2 i s).domain = s.domain from rfl, hst, hsd, hie,
        show ((i.domain, addD2 i d s) : Str × DomainM).2.name = d.name from rfl,
        hdn, hk'] at hne3
      exact some_ne_of hne3 hkie.symm
    cases hchain with
    | replace x xt hdom hsvc hx hxt =>
        have hdm := mget_mem _ _ _ hdom
        have hsm := mget_mem _ _ _ hsvc
        have hxm := mget_mem _ _ _ hx
        have hxlive := mem_instListR hdm hsm hxm
        have hne3 := dk_ne_type_targ hdk hdm hxlive
        rw [show ((i.domain, d) : Str × DomainM).2.name = d.name from rfl, hdn, hk', hxt]
          at hne3
        rw [mget_mdel_ne _ _ _ (some_ne_of hne3)]
        exact hviaDom hdom
    | plain hdom hsvc hx => exact hviaDom hdom
    | newService ie hdom hsvc hsfresh hie =>
        rw [mget_mput_ne _ _ _ _ (hieNEte ie hie)]
        exact hviaDom hdom
    | newDomain te ie hdom hdfresh hsfresh hte hie =>
        rw [hte] at hk'
        injection hk' with hk'
        rw [mget_mput_ne _ _ _ _ (hieNEte ie hie), ← hk', mget_mput_self]
  -- dissect the justification
  rw [expected_iff] at hexp
  obtain ⟨j, hjlive', hjk⟩ := hexp
  rcases (instListR_add hwf hd hs _ j).mp hjlive' with rfl | ⟨hjmem, htrip⟩
  · -- justified by the added instance itself
    rcases hjk with ⟨hk1, hv1⟩ | ⟨hk1, hv1⟩ | ⟨hk1, hv1⟩ | ⟨hk1, hv1⟩
    · rw [hv1]
      exact lemA k hk1
    · rw [hv1]
      exact lemB k hk1
    · rw [hifq] at hk1
      injection hk1 with hk1
      have hne := dk_ne_inst_targ hdk' hliveI hliveI
      rw [hifq, htfq] at hne
      rw [← hk1, mget_mput_ne _ _ _ _ (some_ne_of hne), mget_mput_self, hv1]
    · rw [htfq] at hk1
      injection hk1 with hk1
      rw [← hk1, mget_mput_self, hv1]
  · -- justified by a surviving old instance
    have hji : j ≠ i := by
      intro h
      exact htrip (by rw [h]; exact ⟨rfl, rfl, rfl⟩)
    obtain ⟨dj, sj, hdj, hsj, hij⟩ := instListR_mem_pos hwf hjmem
    obtain ⟨dj', sj', hdj', hsj', hij'⟩ := instListR_mem_pos hwf' hjlive'
    have hsjsvc := mem_svcList hdj hsj
    have hsjsvc' := mem_svcList hdj' hsj'
    have hwdj := hwf.2.2 j.domain dj hdj
    have hwsj := hwdj.2.2.2.2 j.serviceType sj hsj
    have hwdj' := hwf'.2.2 j.domain dj' hdj'
    have hwsj' := hwdj'.2.2.2.2 j.serviceType sj' hsj'
    have hxInListOfReplace : ∀ x, mget s.instances i.name = some x →
        x ∈ instListR st ∧ (x.name = i.name ∧ x.serviceType = i.serviceType ∧
          x.domain = i.domain) := by
      intro x hx
      rcases hd with hdom | ⟨hdom, hdfresh⟩
      · rcases hs with hsvc | ⟨hsvc, hsfresh⟩
        · have hdm := mget_mem _ _ _ hdom
          have hsm := mget_mem _ _ _ hsvc
          have hxm := mget_mem _ _ _ hx
          have hwx := ((hwf.2.2 i.domain d hdm).2.2.2.2 i.serviceType s hsm).2.2.2.2.2
            i.name x hxm
          exact ⟨mem_instListR hdm hsm hxm, hwx.1, hwx.2.1, hwx.2.2.1⟩
        · rw [hsfresh] at hx
          simp [mget] at hx
      · rw [hdfresh] at hs
        rcases hs with hsvc | ⟨hsvc, hsfresh⟩
        · simp [mget] at hsvc
        · rw [hsfresh] at hx
          simp [mget] at hx
    rcases hjk with ⟨hk1, hv1⟩ | ⟨hk1, hv1⟩ | ⟨hk1, hv1⟩ | ⟨hk1, hv1⟩
    · -- enumeration entry of j's service
      by_cases hsame : j.serviceType = i.serviceType ∧ j.domain = i.domain
      · rw [hv1, hsame.1, hsame.2]
        refine lemA k ?_
        rw [← hsame.1, ← hsame.2]
        exact hk1
      · have hsne : sj' ≠ addS2 i s := by
          intro h
          refine hsame ⟨?_, ?_⟩
          · rw [← hwsj'.1, h, hS2t]
          · rw [← hwsj'.2.1, h, hS2d]
        have hkey' : instanceEnumDomain sj'.type sj'.domain = some k := by
          rw [hwsj'.1, hwsj'.2.1]
          exact hk1
        have hkey : instanceEnumDomain sj.type sj.domain = some k := by
          rw [hwsj.1, hwsj.2.1]
          exact hk1
        have hne1 := dk_ne_enum_targ hdk' hsjsvc' hliveI
        rw [hkey', htfq] at hne1
        have hne2 := dk_ne_enum_inst hdk' hsjsvc' hliveI
        rw [hkey', hifq] at hne2
        rw [mget_mput_ne _ _ _ _ (some_ne_of hne1),
          mget_mput_ne _ _ _ _ (some_ne_of hne2)]
        rw [hpass k ?_ ?_ ?_]
        · exact (hix k v).mpr ((expected_iff st k v).mpr ⟨j, hjmem, Or.inl ⟨hk1, hv1⟩⟩)
        · intro x xt hx hxt
          have hxl := hxInListOfReplace x hx
          have hne3 := dk_ne_enum_targ hdk hsjsvc hxl.1
          rw [hkey, hxt] at hne3
          exact some_ne_of hne3
        · intro ie hsvcnone hie
          have hne3 := dk_ne_enum_enum hdk' hsjsvc' hs2 hsne
          rw [hkey', show (addS2 i s).type = s.type from rfl,
            show (addS2 i s).domain = s.domain from rfl, hst, hsd, hie] at hne3
          exact some_ne_of hne3
        · intro te hdomnone hte
          have hne3 := dk_ne_enum_type hdk' hsjsvc' h1
          rw [hkey', show ((i.domain, addD2 i d s) : Str × DomainM).2.name = d.name
            from rfl, hdn, hte] at hne3
          exact some_ne_of hne3
    · -- type enumeration entry of j's domain
      by_cases hsame : j.domain = i.domain
      · rw [hv1, hsame]
        refine lemB k ?_
        rw [← hsame]
        exact hk1
      · have hkey' : typeEnumDomain dj'.name = some k := by
          rw [hwdj'.1]
          exact hk1
        have hkey : typeEnumDomain dj.name = some k := by
          rw [hwdj.1]
          exact hk1
        have hne1 := dk_ne_type_targ hdk' hdj' hliveI
        rw [show ((j.domain, dj') : Str × DomainM).2.name = dj'.name from rfl, hkey', htfq]
          at hne1
        have hne2 := dk_ne_type_inst hdk' hdj' hliveI
        rw [show ((j.domain, dj') : Str × DomainM).2.name = dj'.name from rfl, hkey', hifq]
          at hne2
        rw [mget_mput_ne _ _ _ _ (some_ne_of hne1),
          mget_mput_ne _ _ _ _ (some_ne_of hne2)]
        rw [hpass k ?_ ?_ ?_]
        · exact (hix k v).mpr ((expected_iff st k v).mpr
            ⟨j, hjmem, Or.inr (Or.inl ⟨hk1, hv1⟩)⟩)
        · intro x xt hx hxt
          have hxl := hxInListOfReplace x hx
          have hne3 := dk_ne_type_targ hdk hdj hxl.1
          rw [show ((j.domain, dj) : Str × DomainM).2.name = dj.name from rfl, hkey, hxt]
            at hne3
          exact some_ne_of hne3
        · intro ie hsvcnone hie
          have hne3 := dk_ne_enum_type hdk' hs2 hdj'
          rw [show (addS2 i s).type = s.type from rfl,
            show (addS2 i s).domain = s.domain from rfl, hst, hsd, hie,
            show ((j.domain, dj') : Str × DomainM).2.name = dj'.name from rfl, hkey']
            at hne3
          intro hke
          exact some_ne_of hne3 (by rw [hke])
        · intro te hdomnone hte
          have hentNe : ((j.domain, dj') : Str × DomainM) ≠ (i.domain, addD2 i d s) := by
            intro h
            injection h with hh _
            exact hsame hh
          have hne3 := dk_ne_type_type hdk' hdj' h1 hentNe
          rw [show ((j.domain, dj') : Str × DomainM).2.name = dj'.name from rfl, hkey',
            show ((i.domain, addD2 i d s) : Str × DomainM).2.name = d.name from rfl,
            hdn, hte] at hne3
          exact some_ne_of hne3
    · -- instance entry of j
      have hne1 := dk_ne_inst_targ hdk' hjlive' hliveI
      rw [hk1, htfq] at hne1
      have hne2 := dk_ne_inst_inst hdk' hjlive' hliveI hji
      rw [hk1, hifq] at hne2
      rw [mget_mput_ne _ _ _ _ (some_ne_of hne1),
        mget_mput_ne _ _ _ _ (some_ne_of hne2)]
      rw [hpass k ?_ ?_ ?_]
      · exact (hix k v).mpr ((expected_iff st k v).mpr
          ⟨j, hjmem, Or.inr (Or.inr (Or.inl ⟨hk1, hv1⟩))⟩)
      · intro x xt hx hxt
        have hxl := hxInListOfReplace x hx
        have hne3 := dk_ne_inst_targ hdk hjmem hxl.1
        rw [hk1, hxt] at hne3
        exact some_ne_of hne3
      · intro ie hsvcnone hie
        have hne3 := dk_ne_enum_inst hdk' hs2 hjlive'
        rw [show (addS2 i s).type = s.type from rfl,
          show (addS2 i s).domain = s.domain from rfl, hst, hsd, hie, hk1] at hne3
        intro hke
        exact some_ne_of hne3 (by rw [hke])
      · intro te hdomnone hte
        have hne3 := dk_ne_type_inst hdk' h1 hjlive'
        rw [show ((i.domain, addD2 i d s) : Str × DomainM).2.name = d.name from rfl,
          hdn, hte, hk1] at hne3
        intro hke
        exact some_ne_of hne3 (by rw [hke])
    · -- target entry of j
      have hne1 := dk_ne_targ_targ hdk' hjlive' hliveI hji
      rw [hk1, htfq] at hne1
      have hne2 := dk_ne_inst_targ hdk' hliveI hjlive'
      rw [hk1, hifq] at hne2
      rw [mget_mput_ne _ _ _ _ (some_ne_of hne1)]
      rw [mget_mput_ne _ _ _ _ (fun hke => some_ne_of hne2 (by rw [hke]))]
      rw [hpass k ?_ ?_ ?_]
      · exact (hix k v).mpr ((expected_iff st k v).mpr
          ⟨j, hjmem, Or.inr (Or.inr (Or.inr ⟨hk1, hv1⟩))⟩)
      · intro x xt hx hxt
        have hxl := hxInListOfReplace x hx
        have hjx : j ≠ x := by
          intro h
          exact htrip (by rw [h]; exact ⟨hxl.2.2.2, hxl.2.2.1, hxl.2.1⟩)
        have hne3 := dk_ne_targ_targ hdk hjmem hxl.1 hjx
        rw [hk1, hxt] at hne3
        exact some_ne_of hne3
      · intro ie hsvcnone hie
        have hne3 := dk_ne_enum_targ hdk' hs2 hjlive'
        rw [show (addS2 i s).type = s.type from rfl,
          show (addS2 i s).domain = s.domain from rfl, hst, hsd, hie, hk1] at hne3
        intro hke
        exact some_ne_of hne3 (by rw [hke])
      · intro te hdomnone hte
        have hne3 := dk_ne_type_targ hdk' h1 hjlive'
        rw [show ((i.domain, addD2 i d s) : Str × DomainM).2.name = d.name from rfl,
          hdn, hte, hk1] at hne3
        intro hke
        exact some_ne_of hne3 (by rw [hke])

theorem addInstance_shape {st : Registry} {i : Instance} {st' : Registry}
    (h : addInstance st i = some st') :
    instanceValidate i = true ∧
    ∃ d s a3 ifq tfq, AddChain st i d s a3 ∧
      instFQDN i = some ifq ∧ targetFQDN i = some tfq ∧
      st' = ⟨addDomains st i d s, mput (mput a3 ifq (.inst i)) tfq (.target i)⟩ := by
  by_cases hv : instanceValidate i
  case neg => simp [addInstance, hv] at h
  case pos =>
  refine ⟨hv, ?_⟩
  cases hifq : instFQDN i with
  | none =>
      cases hdom : mget st.domains i.domain with
      | none =>
          cases hte : typeEnumDomain i.domain with
          | none => simp [addInstance, hv, hdom, hte] at h
          | some te =>
              cases hie : instanceEnumDomain i.serviceType i.domain with
              | none => simp [addInstance, hv, hdom, hte, hie, mget] at h
              | some ie => simp [addInstance, hv, hdom, hte, hie, hifq, mget] at h
      | some d0 =>
          cases hsvc : mget d0.services i.serviceType with
          | none =>
              cases hie : instanceEnumDomain i.serviceType i.domain with
              | none => simp [addInstance, hv, hdom, hsvc, hie, mget] at h
              | some ie => simp [addInstance, hv, hdom, hsvc, hie, hifq, mget] at h
          | some s0 =>
              cases hx : mget s0.instances i.name with
              | none => simp [addInstance, hv, hdom, hsvc, hx, hifq] at h
              | some x =>
                  cases hxt : targetFQDN x with
                  | none => simp [addInstance, hv, hdom, hsvc, hx, hxt] at h
                  | some xt => simp [addInstance, hv, hdom, hsvc, hx, hxt, hifq] at h
  | some ifq =>
  cases htfq : targetFQDN i with
  | none =>
      cases hdom : mget st.domains i.domain with
      | none =>
          cases hte : typeEnumDomain i.domain with
          | none => simp [addInstance, hv, hdom, hte] at h
          | some te =>
              cases hie : instanceEnumDomain i.serviceType i.domain with
              | none => simp [addInstance, hv, hdom, hte, hie, mget] at h
              | some ie => simp [addInstance, hv, hdom, hte, hie, hifq, htfq, mget] at h
      | some d0 =>
          cases hsvc : mget d0.services i.serviceType with
          | none =>
              cases hie : instanceEnumDomain i.serviceType i.domain with
              | none => simp [addInstance, hv, hdom, hsvc, hie, mget] at h
              | some ie => simp [addInstance, hv, hdom, hsvc, hie, hifq, htfq, mget] at h
          | some s0 =>
              cases hx : mget s0.instances i.name with
              | none => simp [addInstance, hv, hdom, hsvc, hx, hifq, htfq] at h
              | some x =>
                  cases hxt : targetFQDN x with
                  | none => simp [addInstance, hv, hdom, hsvc, hx, hxt] at h
                  | some xt => simp [addInstance, hv, hdom, hsvc, hx, hxt, hifq, htfq] at h
  | some tfq =>
  cases hdom : mget st.domains i.domain with
  | none =>
      cases hte : typeEnumDomain i.domain with
      | none =>
          exfalso
          simp [addInstance, hv, hdom, hte] at h
      | some te =>
          cases hie : instanceEnumDomain i.serviceType i.domain with
          | none =>
              exfalso
              simp [addInstance, hv, hdom, hte, hie, mget] at h
          | some ie =>
              refine ⟨⟨i.domain, []⟩, ⟨i.serviceType, i.domain, []⟩, _, ifq, tfq,
                AddChain.newDomain te ie hdom rfl rfl hte hie, rfl, rfl, ?_⟩
              simp [addInstance, hv, hdom, hte, hie, hifq, htfq, mget] at h
              rw [← h]
              rfl
  | some d0 =>
      cases hsvc : mget d0.services i.serviceType with
      | none =>
          cases hie : instanceEnumDomain i.serviceType i.domain with
          | none =>
              exfalso
              simp [addInstance, hv, hdom, hsvc, hie, mget] at h
          | some ie =>
              refine ⟨d0, ⟨i.serviceType, i.domain, []⟩, _, ifq, tfq,
                AddChain.newService ie hdom hsvc rfl hie, rfl, rfl, ?_⟩
              simp [addInstance, hv, hdom, hsvc, hie, hifq, htfq, mget] at h
              rw [← h]
              rfl
      | some s0 =>
          cases hx : mget s0.instances i.name with
          | none =>
              refine ⟨d0, s0, _, ifq, tfq,
                AddChain.plain hdom hsvc hx, rfl, rfl, ?_⟩
              simp [addInstance, hv, hdom, hsvc, hx, hifq, htfq] at h
              rw [← h]
              rfl
          | some x =>
              cases hxt : targetFQDN x with
              | none =>
                  exfalso
                  simp [addInstance, hv, hdom, hsvc, hx, hxt] at h
              | some xt =>
                  refine ⟨d0, s0, _, ifq, tfq,
                    AddChain.replace x xt hdom hsvc hx hxt, rfl, rfl, ?_⟩
                  simp [addInstance, hv, hdom, hsvc, hx, hxt, hifq, htfq] at h
                  rw [← h]
                  rfl

theorem typeEnumDomain_isSome {dd : Str} (h : fqdnOk dd = true) :
    (typeEnumDomain dd).isSome = true := by
  have hu : udnOk "_services._dns-sd._udp".toList = true := by decide
  have he : typeEnumDomain dd =
      Option.bind (udnString "_services._dns-sd._udp".toList)
        (fun a => Option.bind (fqdnString dd) (fun b => some (a ++ '.' :: b))) := rfl
  rw [he, udnString, if_pos hu, fqdnString, if_pos h]
  rfl

theorem instanceEnumDomain_isSome {t dd : Str} (ht : serviceTypeOk t = true)
    (h : fqdnOk dd = true) : (instanceEnumDomain t dd).isSome = true := by
  have he : instanceEnumDomain t dd =
      Option.bind (serviceTypeString t)
        (fun a => Option.bind (fqdnString dd) (fun b => some (a ++ '.' :: b))) := rfl
  rw [he, serviceTypeString, if_pos ht, fqdnString, if_pos h]
  rfl

/-! ### The effect of `RemoveInstance` on the tree -/

theorem mdel_nil_keys {β : Type} {m : List (Str × β)} {k : Str}
    (h : mdel m k = []) : ∀ e ∈ m, e.1 = k := by
  intro e he
  have h2 := List.filter_eq_nil_iff.mp h e he
  simpa using h2

theorem mget_mdel_some {β : Type} {m : List (Str × β)} {k dk : Str} {v : β}
    (h : mget (mdel m dk) k = some v) : k ≠ dk ∧ mget m k = some v := by
  by_cases hk : k = dk
  · rw [hk, mget_mdel_self] at h
    cases h
  · rw [mget_mdel_ne _ _ _ hk] at h
    exact ⟨hk, h⟩

/-- The service record after removing one instance but keeping the
service. -/
def remS1 (s : ServiceM) (i : Instance) : ServiceM :=
  { s with instances := mdel s.instances i.name }

/-- The domain record when the shrunk service is written back. -/
def remD1p (d : DomainM) (sv : Str) (s : ServiceM) (i : Instance) : DomainM :=
  { d with services := mput d.services sv (remS1 s i) }

/-- The domain record when the emptied service is dropped. -/
def remD1s (d : DomainM) (i : Instance) : DomainM :=
  { d with services := mdel d.services i.serviceType }

/-- The three state-changing control paths of `RemoveInstance`: shrink the
service, drop the emptied service (removing its enumeration entry), or
drop the emptied domain as well (removing its type-enumeration entry). -/
inductive RemChain (st : Registry) (sv dm : Str) (d : DomainM) (s : ServiceM)
    (i : Instance) (tfq ifq : Str) : Registry → Prop
  | plain
      (hne : mdel s.instances i.name ≠ []) :
      RemChain st sv dm d s i tfq ifq
        ⟨mput st.domains dm (remD1p d sv s i),
         mdel (mdel st.answerers tfq) ifq⟩
  | dropService (ie : Str)
      (hempty : mdel s.instances i.name = [])
      (hne : mdel d.services i.serviceType ≠ [])
      (hie : instanceEnumDomain s.type s.domain = some ie) :
      RemChain st sv dm d s i tfq ifq
        ⟨mput st.domains dm (remD1s d i),
         mdel (mdel (mdel st.answerers tfq) ifq) ie⟩
  | dropDomain (ie te : Str)
      (hemptyI : mdel s.instances i.name = [])
      (hemptyS : mdel d.services i.serviceType = [])
      (hie : instanceEnumDomain s.type s.domain = some ie)
      (hte : typeEnumDomain d.name = some te) :
      RemChain st sv dm d s i tfq ifq
        ⟨mdel st.domains i.domain,
         mdel (mdel (mdel (mdel st.answerers tfq) ifq) ie) te⟩

theorem remove_found_facts {st : Registry} {dm sv n : Str} {d : DomainM}
    {s : ServiceM} {i : Instance} (hwf : WF st)
    (hd : mget st.domains dm = some d) (hs : mget d.services sv = some s)
    (hx : mget s.instances n = some i) :
    d.name = dm ∧ s.type = sv ∧ s.domain = dm ∧
    i.name = n ∧ i.serviceType = sv ∧ i.domain = dm := by
  have hdm := mget_mem _ _ _ hd
  have hsm := mget_mem _ _ _ hs
  have hxm := mget_mem _ _ _ hx
  have hwd := hwf.2.2 dm d hdm
  have hwsv := hwd.2.2.2.2 sv s hsm
  have hwx := hwsv.2.2.2.2.2 n i hxm
  exact ⟨hwd.1, hwsv.1, hwsv.2.1, hwx.1, hwx.2.1, hwx.2.2.1⟩

theorem removeInstance_shape {st st' : Registry} {n sv dm : Str}
    (h : removeInstance st n sv dm = some st') :
    st' = st ∨
    ∃ d s i tfq ifq,
      mget st.domains dm = some d ∧ mget d.services sv = some s ∧
      mget s.instances n = some i ∧
      targetFQDN i = some tfq ∧ instFQDN i = some ifq ∧
      RemChain st sv dm d s i tfq ifq st' := by
  cases hd : mget st.domains dm with
  | none =>
      left
      simp [removeInstance, hd] at h
      exact h.symm
  | some d =>
  cases hs : mget d.services sv with
  | none =>
      left
      simp [removeInstance, hd, hs] at h
      exact h.symm
  | some s =>
  cases hx : mget s.instances n with
  | none =>
      left
      simp [removeInstance, hd, hs, hx] at h
      exact h.symm
  | some i =>
  cases htfq : targetFQDN i with
  | none =>
      exfalso
      simp [removeInstance, hd, hs, hx, htfq] at h
  | some tfq =>
  cases hifq : instFQDN i with
  | none =>
      exfalso
      simp [removeInstance, hd, hs, hx, htfq, hifq] at h
  | some ifq =>
  right
  by_cases hI : mdel s.instances i.name = []
  · cases hie : instanceEnumDomain s.type s.domain with
    | none =>
        exfalso
        simp [removeInstance, hd, hs, hx, htfq, hifq, hI, hie] at h
    | some ie =>
    by_cases hS : mdel d.services i.serviceType = []
    · cases hte : typeEnumDomain d.name with
      | none =>
          exfalso
          simp [removeInstance, hd, hs, hx, htfq, hifq, hI, hie, hS, hte] at h
      | some te =>
          refine ⟨d, s, i, tfq, ifq, rfl, hs, hx, htfq, hifq, ?_⟩
          have hst' : st' = ⟨mdel st.domains i.domain,
              mdel (mdel (mdel (mdel st.answerers tfq) ifq) ie) te⟩ := by
            simp [removeInstance, hd, hs, hx, htfq, hifq, hI, hie, hS, hte] at h
            exact h.symm
          rw [hst']
          exact RemChain.dropDomain ie te hI hS hie hte
    · refine ⟨d, s, i, tfq, ifq, rfl, hs, hx, htfq, hifq, ?_⟩
      have hst' : st' = ⟨mput st.domains dm (remD1s d i),
          mdel (mdel (mdel st.answerers tfq) ifq) ie⟩ := by
        simp [removeInstance, hd, hs, hx, htfq, hifq, hI, hie, hS, remD1s] at h
        exact h.symm
      rw [hst']
      exact RemChain.dropService ie hI hS hie
  · refine ⟨d, s, i, tfq, ifq, rfl, hs, hx, htfq, hifq, ?_⟩
    have hst' : st' = ⟨mput st.domains dm (remD1p d sv s i),
        mdel (mdel st.answerers tfq) ifq⟩ := by
      simp [removeInstance, hd, hs, hx, htfq, hifq, hI, mput_ne_nil,
        remD1p, remS1] at h
      exact h.symm
    rw [hst']
    exact RemChain.plain hI

/-- After a state-changing `RemoveInstance`, every live instance was live
before and is not the removed one. -/
theorem instListR_rem_sub {st : Registry} {n sv dm : Str} {d : DomainM}
    {s : ServiceM} {i : Instance} {tfq ifq : Str} {st' : Registry} (hwf : WF st)
    (hd : mget st.domains dm = some d) (hs : mget d.services sv = some s)
    (hx : mget s.instances n = some i)
    (hchain : RemChain st sv dm d s i tfq ifq st')
    {j : Instance} (hj : j ∈ instListR st') : j ∈ instListR st ∧ j ≠ i := by
  obtain ⟨hdn, hst, hsd, hin, hit, hid⟩ := remove_found_facts hwf hd hs hx
  have hdm := mget_mem _ _ _ hd
  have hsm := mget_mem _ _ _ hs
  have hxm := mget_mem _ _ _ hx
  obtain ⟨dk', d', sk', s', ik', hd', hs', hi'⟩ := instListR_mem_posAny hj
  cases hchain with
  | plain hne =>
      rcases (mem_mput _ _ _ _).mp hd' with heq | ⟨hold, hneD⟩
      · injection heq with hdk hdd
        rw [hdd] at hs'
        rcases (mem_mput _ _ _ _).mp hs' with heq2 | ⟨hold2, hneS⟩
        · injection heq2 with hsk hss
          rw [hss] at hi'
          have hi2 := (mem_mdel _ _ _).mp hi'
          refine ⟨mem_instListR hdm hsm hi2.1, ?_⟩
          intro hji
          have hwx := ((hwf.2.2 dm d hdm).2.2.2.2 sv s hsm).2.2.2.2.2 ik' j hi2.1
          rw [hji] at hwx
          exact hi2.2 hwx.1.symm
        · refine ⟨mem_instListR hdm hold2 hi', ?_⟩
          intro hji
          have hwx := ((hwf.2.2 dm d hdm).2.2.2.2 sk' s' hold2).2.2.2.2.2 ik' j hi'
          rw [hji] at hwx
          refine hneS ?_
          show sk' = sv
          rw [← hwx.2.1]
          exact hit
      · refine ⟨mem_instListR hold hs' hi', ?_⟩
        intro hji
        have hwx := ((hwf.2.2 dk' d' hold).2.2.2.2 sk' s' hs').2.2.2.2.2 ik' j hi'
        rw [hji] at hwx
        refine hneD ?_
        show dk' = dm
        rw [← hwx.2.2.1]
        exact hid
  | dropService ie hempty hne hie =>
      rcases (mem_mput _ _ _ _).mp hd' with heq | ⟨hold, hneD⟩
      · injection heq with hdk hdd
        rw [hdd] at hs'
        have hs2 := (mem_mdel _ _ _).mp hs'
        refine ⟨mem_instListR hdm hs2.1 hi', ?_⟩
        intro hji
        have hwx := ((hwf.2.2 dm d hdm).2.2.2.2 sk' s' hs2.1).2.2.2.2.2 ik' j hi'
        rw [hji] at hwx
        exact hs2.2 hwx.2.1.symm
      · refine ⟨mem_instListR hold hs' hi', ?_⟩
        intro hji
        have hwx := ((hwf.2.2 dk' d' hold).2.2.2.2 sk' s' hs').2.2.2.2.2 ik' j hi'
        rw [hji] at hwx
        refine hneD ?_
        show dk' = dm
        rw [← hwx.2.2.1]
        exact hid
  | dropDomain ie te hemptyI hemptyS hie hte =>
      have hd2 := (mem_mdel _ _ _).mp hd'
      refine ⟨mem_instListR hd2.1 hs' hi', ?_⟩
      intro hji
      have hwx := ((hwf.2.2 dk' d' hd2.1).2.2.2.2 sk' s' hs').2.2.2.2.2 ik' j hi'
      rw [hji] at hwx
      exact hd2.2 hwx.2.2.1.symm

/-- After a state-changing `RemoveInstance`, every other previously-live
instance is still live. -/
theorem instListR_rem_mem {st : Registry} {n sv dm : Str} {d : DomainM}
    {s : ServiceM} {i : Instance} {tfq ifq : Str} {st' : Registry} (hwf : WF st)
    (hd : mget st.domains dm = some d) (hs : mget d.services sv = some s)
    (hx : mget s.instances n = some i)
    (hchain : RemChain st sv dm d s i tfq ifq st')
    {j : Instance} (hj : j ∈ instListR st) (hji : j ≠ i) : j ∈ instListR st' := by
  obtain ⟨hdn, hst, hsd, hin, hit, hid⟩ := remove_found_facts hwf hd hs hx
  have hdm := mget_mem _ _ _ hd
  have hsm := mget_mem _ _ _ hs
  have hxm := mget_mem _ _ _ hx
  have hwd := hwf.2.2 dm d hdm
  have hdnd : keysNodup d.services := hwd.2.2.1
  have hwsv := hwd.2.2.2.2 sv s hsm
  have hsnd : keysNodup s.instances := hwsv.2.2.2.1
  have hxm2 : ((i.name, i) : Str × Instance) ∈ s.instances := by
    rw [hin]
    exact hxm
  obtain ⟨dj, sj, hdj, hsj, hij⟩ := instListR_mem_pos hwf hj
  cases hchain with
  | plain hne =>
      by_cases hdomEq : j.domain = dm
      · have hdj2 : ((dm, dj) : Str × DomainM) ∈ st.domains := by
          rw [← hdomEq]
          exact hdj
        have hdjd : dj = d := mem_keysNodup_eq hwf.1 hdj2 hdm
        have hsj2 : (j.serviceType, sj) ∈ d.services := by
          rw [← hdjd]
          exact hsj
        by_cases hsvcEq : j.serviceType = sv
        · have hsj3 : ((sv, sj) : Str × ServiceM) ∈ d.services := by
            rw [← hsvcEq]
            exact hsj2
          have hsjs : sj = s := mem_keysNodup_eq hdnd hsj3 hsm
          have hij2 : ((j.name, j) : Str × Instance) ∈ s.instances := by
            rw [← hsjs]
            exact hij
          have hnameNe : j.name ≠ i.name := by
            intro hn
            apply hji
            have hij3 : ((i.name, j) : Str × Instance) ∈ s.instances := by
              rw [← hn]
              exact hij2
            exact mem_keysNodup_eq hsnd hij3 hxm2
          have h1 : ((dm, remD1p d sv s i) : Str × DomainM) ∈
              (⟨mput st.domains dm (remD1p d sv s i),
                mdel (mdel st.answerers tfq) ifq⟩ : Registry).domains :=
            (mem_mput _ _ _ _).mpr (Or.inl rfl)
          have h2 : ((sv, remS1 s i) : Str × ServiceM) ∈ (remD1p d sv s i).services :=
            (mem_mput _ _ _ _).mpr (Or.inl rfl)
          have h3 : ((j.name, j) : Str × Instance) ∈ (remS1 s i).instances :=
            (mem_mdel _ _ _).mpr ⟨hij2, hnameNe⟩
          exact mem_instListR h1 h2 h3
        · have h1 : ((dm, remD1p d sv s i) : Str × DomainM) ∈
              (⟨mput st.domains dm (remD1p d sv s i),
                mdel (mdel st.answerers tfq) ifq⟩ : Registry).domains :=
            (mem_mput _ _ _ _).mpr (Or.inl rfl)
          have h2 : (j.serviceType, sj) ∈ (remD1p d sv s i).services :=
            (mem_mput _ _ _ _).mpr (Or.inr ⟨hsj2, hsvcEq⟩)
          exact mem_instListR h1 h2 hij
      · have h1 : (j.domain, dj) ∈
            (⟨mput st.domains dm (remD1p d sv s i),
              mdel (mdel st.answerers tfq) ifq⟩ : Registry).domains :=
          (mem_mput _ _ _ _).mpr (Or.inr ⟨hdj, hdomEq⟩)
        exact mem_instListR h1 hsj hij
  | dropService ie hempty hne hie =>
      by_cases hdomEq : j.domain = dm
      · have hdj2 : ((dm, dj) : Str × DomainM) ∈ st.domains := by
          rw [← hdomEq]
          exact hdj
        have hdjd : dj = d := mem_keysNodup_eq hwf.1 hdj2 hdm
        have hsj2 : (j.serviceType, sj) ∈ d.services := by
          rw [← hdjd]
          exact hsj
        have hsvcNe : j.serviceType ≠ i.serviceType := by
          intro hsv
          apply hji
          have hsj3 : ((sv, sj) : Str × ServiceM) ∈ d.services := by
            rw [← hit, ← hsv]
            exact hsj2
          have hsjs : sj = s := mem_keysNodup_eq hdnd hsj3 hsm
          have hij2 : ((j.name, j) : Str × Instance) ∈ s.instances := by
            rw [← hsjs]
            exact hij
          have hkey : j.name = i.name := mdel_nil_keys hempty (j.name, j) hij2
          have hij3 : ((i.name, j) : Str × Instance) ∈ s.instances := by
            rw [← hkey]
            exact hij2
          exact mem_keysNodup_eq hsnd hij3 hxm2
        have h1 : ((dm, remD1s d i) : Str × DomainM) ∈
            (⟨mput st.domains dm (remD1s d i),
              mdel (mdel (mdel st.answerers tfq) ifq) ie⟩ : Registry).domains :=
          (mem_mput _ _ _ _).mpr (Or.inl rfl)
        have h2 : (j.serviceType, sj) ∈ (remD1s d i).services :=
          (mem_mdel _ _ _).mpr ⟨hsj2, hsvcNe⟩
        exact mem_instListR h1 h2 hij
      · have h1 : (j.domain, dj) ∈
            (⟨mput st.domains dm (remD1s d i),
              mdel (mdel (mdel st.answerers tfq) ifq) ie⟩ : Registry).domains :=
          (mem_mput _ _ _ _).mpr (Or.inr ⟨hdj, hdomEq⟩)
        exact mem_instListR h1 hsj hij
  | dropDomain ie te hemptyI hemptyS hie hte =>
      have hdomNe : j.domain ≠ i.domain := by
        intro hdo
        apply hji
        have hdj2 : ((dm, dj) : Str × DomainM) ∈ st.domains := by
          rw [← hid, ← hdo]
          exact hdj
        have hdjd : dj = d := mem_keysNodup_eq hwf.1 hdj2 hdm
        have hsj2 : (j.serviceType, sj) ∈ d.services := by
          rw [← hdjd]
          exact hsj
        have hsvkey : j.serviceType = i.serviceType :=
          mdel_nil_keys hemptyS (j.serviceType, sj) hsj2
        have hsj3 : ((sv, sj) : Str × ServiceM) ∈ d.services := by
          rw [← hit, ← hsvkey]
          exact hsj2
        have hsjs : sj = s := mem_keysNodup_eq hdnd hsj3 hsm
        have hij2 : ((j.name, j) : Str × Instance) ∈ s.instances := by
          rw [← hsjs]
          exact hij
        have hkey : j.name = i.name := mdel_nil_keys hemptyI (j.name, j) hij2
        have hij3 : ((i.name, j) : Str × Instance) ∈ s.instances := by
          rw [← hkey]
          exact hij2
        exact mem_keysNodup_eq hsnd hij3 hxm2
      have h1 : (j.domain, dj) ∈
          (⟨mdel st.domains i.domain,
            mdel (mdel (mdel (mdel st.answerers tfq) ifq) ie) te⟩ :
              Registry).domains :=
        (mem_mdel _ _ _).mpr ⟨hdj, hdomNe⟩
      exact mem_instListR h1 hsj hij

theorem wf_remove {st : Registry} {n sv dm : Str} {d : DomainM} {s : ServiceM}
    {i : Instance} {tfq ifq : Str} {st' : Registry} (hwf : WF st)
    (hd : mget st.domains dm = some d) (hs : mget d.services sv = some s)
    (hx : mget s.instances n = some i)
    (hchain : RemChain st sv dm d s i tfq ifq st') : WF st' := by
  obtain ⟨hdn, hst, hsd, hin, hit, hid⟩ := remove_found_facts hwf hd hs hx
  have hdm := mget_mem _ _ _ hd
  have hsm := mget_mem _ _ _ hs
  have hwd := hwf.2.2 dm d hdm
  have hwsv := hwd.2.2.2.2 sv s hsm
  cases hchain with
  | plain hne =>
      refine ⟨keysNodup_mput hwf.1 _ _,
        keysNodup_mdel (keysNodup_mdel hwf.2.1 _) _, ?_⟩
      intro dk' d' hmem
      rcases (mem_mput _ _ _ _).mp hmem with heq | ⟨hold, hneD⟩
      · injection heq with hdk hdd
        rw [hdd, hdk]
        refine ⟨hdn, mput_ne_nil _ _ _, keysNodup_mput hwd.2.2.1 _ _,
          hwd.2.2.2.1, ?_⟩
        intro sk' s' hmem2
        rcases (mem_mput _ _ _ _).mp hmem2 with heq2 | ⟨hold2, hne2⟩
        · injection heq2 with hsk hss
          rw [hss, hsk]
          refine ⟨hwsv.1, hwsv.2.1, hne, keysNodup_mdel hwsv.2.2.2.1 _,
            hwsv.2.2.2.2.1, ?_⟩
          intro ik' i' hmem3
          exact hwsv.2.2.2.2.2 ik' i' ((mem_mdel _ _ _).mp hmem3).1
        · exact hwd.2.2.2.2 sk' s' hold2
      · exact hwf.2.2 dk' d' hold
  | dropService ie hempty hne hie =>
      refine ⟨keysNodup_mput hwf.1 _ _,
        keysNodup_mdel (keysNodup_mdel (keysNodup_mdel hwf.2.1 _) _) _, ?_⟩
      intro dk' d' hmem
      rcases (mem_mput _ _ _ _).mp hmem with heq | ⟨hold, hneD⟩
      · injection heq with hdk hdd
        rw [hdd, hdk]
        refine ⟨hdn, hne, keysNodup_mdel hwd.2.2.1 _, hwd.2.2.2.1, ?_⟩
        intro sk' s' hmem2
        exact hwd.2.2.2.2 sk' s' ((mem_mdel _ _ _).mp hmem2).1
      · exact hwf.2.2 dk' d' hold
  | dropDomain ie te hemptyI hemptyS hie hte =>
      refine ⟨keysNodup_mdel hwf.1 _,
        keysNodup_mdel (keysNodup_mdel (keysNodup_mdel
          (keysNodup_mdel hwf.2.1 _) _) _) _, ?_⟩
      intro dk' d' hmem
      exact hwf.2.2 dk' d' ((mem_mdel _ _ _).mp hmem).1

theorem index_rem_fwd {st : Registry} {n sv dm : Str} {d : DomainM} {s : ServiceM}
    {i : Instance} {tfq ifq : Str} {st' : Registry}
    (hwf : WF st) (hix : IndexExact st)
    (hd : mget st.domains dm = some d) (hs : mget d.services sv = some s)
    (hx : mget s.instances n = some i)
    (htfq : targetFQDN i = some tfq) (hifq : instFQDN i = some ifq)
    (hchain : RemChain st sv dm d s i tfq ifq st')
    (k : Str) (v : AnswererV) (hlk : mget st'.answerers k = some v) :
    Expected st' k v := by
  obtain ⟨hdn, hst, hsd, hin, hit, hid⟩ := remove_found_facts hwf hd hs hx
  have hdm := mget_mem _ _ _ hd
  have hsm := mget_mem _ _ _ hs
  have hwd := hwf.2.2 dm d hdm
  have hwsv := hwd.2.2.2.2 sv s hsm
  cases hchain with
  | plain hne =>
      have hlk0 : mget (mdel (mdel st.answerers tfq) ifq) k = some v := hlk
      obtain ⟨hkifq, hlk1⟩ := mget_mdel_some hlk0
      obtain ⟨hktfq, hold⟩ := mget_mdel_some hlk1
      have hexp := (hix k v).mp hold
      rw [expected_iff] at hexp
      obtain ⟨j, hjlive, hjk⟩ := hexp
      by_cases hji : j = i
      · rw [hji] at hjk
        obtain ⟨e, he⟩ := List.exists_mem_of_ne_nil _ hne
        have he2 := (mem_mdel _ _ _).mp he
        have he3 : ((e.1, e.2) : Str × Instance) ∈ s.instances := he2.1
        have hw0 := hwsv.2.2.2.2.2 e.1 e.2 he3
        have h1 : ((dm, remD1p d sv s i) : Str × DomainM) ∈
            (⟨mput st.domains dm (remD1p d sv s i),
              mdel (mdel st.answerers tfq) ifq⟩ : Registry).domains :=
          (mem_mput _ _ _ _).mpr (Or.inl rfl)
        have h2 : ((sv, remS1 s i) : Str × ServiceM) ∈ (remD1p d sv s i).services :=
          (mem_mput _ _ _ _).mpr (Or.inl rfl)
        have h3 : ((e.1, e.2) : Str × Instance) ∈ (remS1 s i).instances := he
        have hlive' := mem_instListR h1 h2 h3
        rcases hjk with ⟨hk1, hv1⟩ | ⟨hk1, hv1⟩ | ⟨hk1, hv1⟩ | ⟨hk1, hv1⟩
        · rw [hit, hid] at hk1
          rw [expected_iff]
          refine ⟨e.2, hlive', Or.inl ⟨?_, ?_⟩⟩
          · rw [hw0.2.1, hw0.2.2.1]
            exact hk1
          · rw [hv1, hw0.2.1, hw0.2.2.1, hit, hid]
        · rw [hid] at hk1
          rw [expected_iff]
          refine ⟨e.2, hlive', Or.inr (Or.inl ⟨?_, ?_⟩)⟩
          · rw [hw0.2.2.1]
            exact hk1
          · rw [hv1, hw0.2.2.1, hid]
        · exfalso
          rw [hifq] at hk1
          injection hk1 with hk1
          exact hkifq hk1.symm
        · exfalso
          rw [htfq] at hk1
          injection hk1 with hk1
          exact hktfq hk1.symm
      · have hlive' := instListR_rem_mem hwf hd hs hx
          (RemChain.plain hne : RemChain st sv dm d s i tfq ifq _) hjlive hji
        rw [expected_iff]
        exact ⟨j, hlive', hjk⟩
  | dropService ie hempty hne hie =>
      have hlk0 : mget (mdel (mdel (mdel st.answerers tfq) ifq) ie) k = some v := hlk
      obtain ⟨hkie, hlk1⟩ := mget_mdel_some hlk0
      obtain ⟨hkifq, hlk2⟩ := mget_mdel_some hlk1
      obtain ⟨hktfq, hold⟩ := mget_mdel_some hlk2
      have hexp := (hix k v).mp hold
      rw [expected_iff] at hexp
      obtain ⟨j, hjlive, hjk⟩ := hexp
      by_cases hji : j = i
      · rw [hji] at hjk
        rcases hjk with ⟨hk1, hv1⟩ | ⟨hk1, hv1⟩ | ⟨hk1, hv1⟩ | ⟨hk1, hv1⟩
        · exfalso
          rw [hit, hid] at hk1
          rw [hst, hsd] at hie
          rw [hie] at hk1
          injection hk1 with hk1
          exact hkie hk1.symm
        · obtain ⟨es, hes⟩ := List.exists_mem_of_ne_nil _ hne
          have hes2 := (mem_mdel _ _ _).mp hes
          have hes3 : ((es.1, es.2) : Str × ServiceM) ∈ d.services := hes2.1
          have hws2 := hwd.2.2.2.2 es.1 es.2 hes3
          obtain ⟨e0, he0⟩ := List.exists_mem_of_ne_nil _ hws2.2.2.1
          have he03 : ((e0.1, e0.2) : Str × Instance) ∈ es.2.instances := he0
          have hw0 := hws2.2.2.2.2.2 e0.1 e0.2 he03
          have h1 : ((dm, remD1s d i) : Str × DomainM) ∈
              (⟨mput st.domains dm (remD1s d i),
                mdel (mdel (mdel st.answerers tfq) ifq) ie⟩ : Registry).domains :=
            (mem_mput _ _ _ _).mpr (Or.inl rfl)
          have h2 : ((es.1, es.2) : Str × ServiceM) ∈ (remD1s d i).services := hes
          have hlive' := mem_instListR h1 h2 he03
          rw [hid] at hk1
          rw [expected_iff]
          refine ⟨e0.2, hlive', Or.inr (Or.inl ⟨?_, ?_⟩)⟩
          · rw [hw0.2.2.1]
            exact hk1
          · rw [hv1, hw0.2.2.1, hid]
        · exfalso
          rw [hifq] at hk1
          injection hk1 with hk1
          exact hkifq hk1.symm
        · exfalso
          rw [htfq] at hk1
          injection hk1 with hk1
          exact hktfq hk1.symm
      · have hlive' := instListR_rem_mem hwf hd hs hx
          (RemChain.dropService ie hempty hne hie :
            RemChain st sv dm d s i tfq ifq _) hjlive hji
        rw [expected_iff]
        exact ⟨j, hlive', hjk⟩
  | dropDomain ie te hemptyI hemptyS hie hte =>
      have hlk0 :
          mget (mdel (mdel (mdel (mdel st.answerers tfq) ifq) ie) te) k = some v := hlk
      obtain ⟨hkte, hlk1⟩ := mget_mdel_some hlk0
      obtain ⟨hkie, hlk2⟩ := mget_mdel_some hlk1
      obtain ⟨hkifq, hlk3⟩ := mget_mdel_some hlk2
      obtain ⟨hktfq, hold⟩ := mget_mdel_some hlk3
      have hexp := (hix k v).mp hold
      rw [expected_iff] at hexp
      obtain ⟨j, hjlive, hjk⟩ := hexp
      by_cases hji : j = i
      · rw [hji] at hjk
        rcases hjk with ⟨hk1, hv1⟩ | ⟨hk1, hv1⟩ | ⟨hk1, hv1⟩ | ⟨hk1, hv1⟩
        · exfalso
          rw [hit, hid] at hk1
          rw [hst, hsd] at hie
          rw [hie] at hk1
          injection hk1 with hk1
          exact hkie hk1.symm
        · exfalso
          rw [hid] at hk1
          rw [hdn] at hte
          rw [hte] at hk1
          injection hk1 with hk1
          exact hkte hk1.symm
        · exfalso
          rw [hifq] at hk1
          injection hk1 with hk1
          exact hkifq hk1.symm
        · exfalso
          rw [htfq] at hk1
          injection hk1 with hk1
          exact hktfq hk1.symm
      · have hlive' := instListR_rem_mem hwf hd hs hx
          (RemChain.dropDomain ie te hemptyI hemptyS hie hte :
            RemChain st sv dm d s i tfq ifq _) hjlive hji
        rw [expected_iff]
        exact ⟨j, hlive', hjk⟩

theorem index_rem_bwd {st : Registry} {n sv dm : Str} {d : DomainM} {s : ServiceM}
    {i : Instance} {tfq ifq : Str} {st' : Registry}
    (hwf : WF st) (hix : IndexExact st) (hdk : DK st)
    (hd : mget st.domains dm = some d) (hs : mget d.services sv = some s)
    (hx : mget s.instances n = some i)
    (htfq : targetFQDN i = some tfq) (hifq : instFQDN i = some ifq)
    (hchain : RemChain st sv dm d s i tfq ifq st')
    (k : Str) (v : AnswererV) (hexp : Expected st' k v) :
    mget st'.answerers k = some v := by
  obtain ⟨hdn, hst, hsd, hin, hit, hid⟩ := remove_found_facts hwf hd hs hx
  have hdm := mget_mem _ _ _ hd
  have hsm := mget_mem _ _ _ hs
  have hxm := mget_mem _ _ _ hx
  have hwd := hwf.2.2 dm d hdm
  have hwsv := hwd.2.2.2.2 sv s hsm
  have hxm2 : ((i.name, i) : Str × Instance) ∈ s.instances := by
    rw [hin]
    exact hxm
  have hiL : i ∈ instListR st := mem_instListR hdm hsm hxm
  have hsL : s ∈ svcList st := mem_svcList hdm hsm
  rw [expected_iff] at hexp
  obtain ⟨j, hjlive', hjk⟩ := hexp
  obtain ⟨hjmem, hji⟩ := instListR_rem_sub hwf hd hs hx hchain hjlive'
  obtain ⟨dj, sj, hdj, hsj, hij⟩ := instListR_mem_pos hwf hjmem
  have hsjL := mem_svcList hdj hsj
  have hwdj := hwf.2.2 j.domain dj hdj
  have hwsj := hwdj.2.2.2.2 j.serviceType sj hsj
  have hold : mget st.answerers k = some v :=
    (hix k v).mpr ((expected_iff st k v).mpr ⟨j, hjmem, hjk⟩)
  have hktfq : k ≠ tfq := by
    rcases hjk with ⟨hk1, hv1⟩ | ⟨hk1, hv1⟩ | ⟨hk1, hv1⟩ | ⟨hk1, hv1⟩
    · have hne1 := dk_ne_enum_targ hdk hsjL hiL
      rw [hwsj.1, hwsj.2.1, hk1, htfq] at hne1
      exact some_ne_of hne1
    · have hne1 := dk_ne_type_targ hdk hdj hiL
      rw [show ((j.domain, dj) : Str × DomainM).2.name = dj.name from rfl,
        hwdj.1, hk1, htfq] at hne1
      exact some_ne_of hne1
    · have hne1 := dk_ne_inst_targ hdk hjmem hiL
      rw [hk1, htfq] at hne1
      exact some_ne_of hne1
    · have hne1 := dk_ne_targ_targ hdk hjmem hiL hji
      rw [hk1, htfq] at hne1
      exact some_ne_of hne1
  have hkifq : k ≠ ifq := by
    rcases hjk with ⟨hk1, hv1⟩ | ⟨hk1, hv1⟩ | ⟨hk1, hv1⟩ | ⟨hk1, hv1⟩
    · have hne1 := dk_ne_enum_inst hdk hsjL hiL
      rw [hwsj.1, hwsj.2.1, hk1, hifq] at hne1
      exact some_ne_of hne1
    · have hne1 := dk_ne_type_inst hdk hdj hiL
      rw [show ((j.domain, dj) : Str × DomainM).2.name = dj.name from rfl,
        hwdj.1, hk1, hifq] at hne1
      exact some_ne_of hne1
    · have hne1 := dk_ne_inst_inst hdk hjmem hiL hji
      rw [hk1, hifq] at hne1
      exact some_ne_of hne1
    · have hne1 := dk_ne_inst_targ hdk hiL hjmem
      rw [hifq, hk1] at hne1
      exact (some_ne_of hne1).symm
  have hkie : ∀ ie, mdel s.instances i.name = [] →
      instanceEnumDomain s.type s.domain = some ie → k ≠ ie := by
    intro ie hempty hie2
    rcases hjk with ⟨hk1, hv1⟩ | ⟨hk1, hv1⟩ | ⟨hk1, hv1⟩ | ⟨hk1, hv1⟩
    · have hsji : sj ≠ s := by
        intro hsjs
        apply hji
        have hij2 : ((j.name, j) : Str × Instance) ∈ s.instances := by
          rw [← hsjs]
          exact hij
        have hkey : j.name = i.name := mdel_nil_keys hempty (j.name, j) hij2
        have hij3 : ((i.name, j) : Str × Instance) ∈ s.instances := by
          rw [← hkey]
          exact hij2
        exact mem_keysNodup_eq hwsv.2.2.2.1 hij3 hxm2
      have hne1 := dk_ne_enum_enum hdk hsjL hsL hsji
      rw [hwsj.1, hwsj.2.1, hk1, hie2] at hne1
      exact some_ne_of hne1
    · have hne1 := dk_ne_enum_type hdk hsL hdj
      rw [hie2, show ((j.domain, dj) : Str × DomainM).2.name = dj.name from rfl,
        hwdj.1, hk1] at hne1
      exact (some_ne_of hne1).symm
    · have hne1 := dk_ne_enum_inst hdk hsL hjmem
      rw [hie2, hk1] at hne1
      exact (some_ne_of hne1).symm
    · have hne1 := dk_ne_enum_targ hdk hsL hjmem
      rw [hie2, hk1] at hne1
      exact (some_ne_of hne1).symm
  have hkte : ∀ te, mdel s.instances i.name = [] →
      mdel d.services i.serviceType = [] →
      typeEnumDomain d.name = some te → k ≠ te := by
    intro te hemptyI hemptyS hte2
    rcases hjk with ⟨hk1, hv1⟩ | ⟨hk1, hv1⟩ | ⟨hk1, hv1⟩ | ⟨hk1, hv1⟩
    · have hne1 := dk_ne_enum_type hdk hsjL hdm
      rw [hwsj.1, hwsj.2.1, hk1,
        show ((dm, d) : Str × DomainM).2.name = d.name from rfl, hte2] at hne1
      exact some_ne_of hne1
    · have hentNe : ((j.domain, dj) : Str × DomainM) ≠ (dm, d) := by
        intro hent
        injection hent with h1 h2
        apply hji
        have hsj2 : (j.serviceType, sj) ∈ d.services := by
          rw [← h2]
          exact hsj
        have hsvkey : j.serviceType = i.serviceType :=
          mdel_nil_keys hemptyS (j.serviceType, sj) hsj2
        have hsj3 : ((sv, sj) : Str × ServiceM) ∈ d.services := by
          rw [← hit, ← hsvkey]
          exact hsj2
        have hsjs : sj = s := mem_keysNodup_eq hwd.2.2.1 hsj3 hsm
        have hij2 : ((j.name, j) : Str × Instance) ∈ s.instances := by
          rw [← hsjs]
          exact hij
        have hkey : j.name = i.name := mdel_nil_keys hemptyI (j.name, j) hij2
        have hij3 : ((i.name, j) : Str × Instance) ∈ s.instances := by
          rw [← hkey]
          exact hij2
        exact mem_keysNodup_eq hwsv.2.2.2.1 hij3 hxm2
      have hne1 := dk_ne_type_type hdk hdj hdm hentNe
      rw [show ((j.domain, dj) : Str × DomainM).2.name = dj.name from rfl,
        hwdj.1, hk1, show ((dm, d) : Str × DomainM).2.name = d.name from rfl,
        hte2] at hne1
      exact some_ne_of hne1
    · have hne1 := dk_ne_type_inst hdk hdm hjmem
      rw [show ((dm, d) : Str × DomainM).2.name = d.name from rfl, hte2, hk1] at hne1
      exact (some_ne_of hne1).symm
    · have hne1 := dk_ne_type_targ hdk hdm hjmem
      rw [show ((dm, d) : Str × DomainM).2.name = d.name from rfl, hte2, hk1] at hne1
      exact (some_ne_of hne1).symm
  cases hchain with
  | plain hne =>
      show mget (mdel (mdel st.answerers tfq) ifq) k = some v
      rw [mget_mdel_ne _ _ _ hkifq, mget_mdel_ne _ _ _ hktfq]
      exact hold
  | dropService ie hempty hne hie =>
      show mget (mdel (mdel (mdel st.answerers tfq) ifq) ie) k = some v
      rw [mget_mdel_ne _ _ _ (hkie ie hempty hie), mget_mdel_ne _ _ _ hkifq,
        mget_mdel_ne _ _ _ hktfq]
      exact hold
  | dropDomain ie te hemptyI hemptyS hie hte =>
      show mget (mdel (mdel (mdel (mdel st.answerers tfq) ifq) ie) te) k = some v
      rw [mget_mdel_ne _ _ _ (hkte te hemptyI hemptyS hte),
        mget_mdel_ne _ _ _ (hkie ie hemptyI hie),
        mget_mdel_ne _ _ _ hkifq, mget_mdel_ne _ _ _ hktfq]
      exact hold

theorem removeInstance_inv {st st' : Registry} {n sv dm : Str}
    (hinv : Inv st) (hdk : DK st)
    (hstep : removeInstance st n sv dm = some st') : Inv st' := by
  rcases removeInstance_shape hstep with rfl |
    ⟨d, s, i, tfq, ifq, hd, hs, hx, htfq, hifq, hchain⟩
  · exact hinv
  · obtain ⟨hwf, hix⟩ := hinv
    refine ⟨wf_remove hwf hd hs hx hchain, fun k v => ⟨?_, ?_⟩⟩
    · exact index_rem_fwd hwf hix hd hs hx htfq hifq hchain k v
    · exact index_rem_bwd hwf hix hdk hd hs hx htfq hifq hchain k v

theorem addInstance_inv {st st' : Registry} {i : Instance}
    (hinv : Inv st) (hdk : DK st) (hstep : addInstance st i = some st')
    (hdk' : DK st') : Inv st' := by
  obtain ⟨hv, d, s, a3, ifq, tfq, hchain, hifq, htfq, rfl⟩ := addInstance_shape hstep
  obtain ⟨hwf, hix⟩ := hinv
  have hd := addChain_domShape hchain
  have hs := addChain_svcShape hchain
  have hifqS : (instFQDN i).isSome = true := by rw [hifq]; rfl
  have htfqS : (targetFQDN i).isSome = true := by rw [htfq]; rfl
  have hvd : fqdnOk i.domain = true := by
    have hv' := hv
    simp [instanceValidate] at hv'
    tauto
  have hvt : serviceTypeOk i.serviceType = true := by
    have hv' := hv
    simp [instanceValidate] at hv'
    tauto
  have hteS := typeEnumDomain_isSome hvd
  have hieS := instanceEnumDomain_isSome hvt hvd
  have hka3 : keysNodup a3 := by
    cases hchain with
    | replace x xt _ _ _ _ => exact keysNodup_mdel hwf.2.1 _
    | plain _ _ _ => exact hwf.2.1
    | newService ie _ _ _ _ => exact keysNodup_mput hwf.2.1 _ _
    | newDomain te ie _ _ _ _ _ => exact keysNodup_mput (keysNodup_mput hwf.2.1 _ _) _ _
  have hka' : keysNodup (mput (mput a3 ifq (.inst i)) tfq (.target i)) :=
    keysNodup_mput (keysNodup_mput hka3 _ _) _ _
  have hwf' : WF ⟨addDomains st i d s, mput (mput a3 ifq (.inst i)) tfq (.target i)⟩ :=
    wf_add hwf hd hs hifqS htfqS hteS hieS hka'
  refine ⟨hwf', fun k v => ⟨?_, ?_⟩⟩
  · exact index_add_fwd hwf hix hifq htfq hchain k v
  · exact index_add_bwd hwf hix hdk hifq htfq hchain hwf' hdk' k v

/-! ### The registry invariant along a run -/

theorem inv_empty : Inv emptyRegistry := by
  constructor
  · exact ⟨keysNodup_nil, keysNodup_nil, fun dk d h => absurd h (List.not_mem_nil _)⟩
  · intro k v
    constructor
    · intro h
      simp [emptyRegistry, mget] at h
    · rintro ⟨dk, d, sk, s, ik, i, hdm, -⟩
      exact absurd hdm (List.not_mem_nil _)

theorem runFrom_cons (st : Registry) (op : Op) (l : List Op) :
    runFrom st (op :: l) = (step st op).bind fun s1 => runFrom s1 l := rfl

theorem runFrom_inv (ops : List Op) (st0 : Registry) (hinv : Inv st0)
    (hdks : ∀ m stn, runFrom st0 (ops.take m) = some stn → DK stn)
    (st : Registry) (hrun : runFrom st0 ops = some st) : Inv st := by
  induction ops generalizing st0 with
  | nil =>
      have h0 : some st0 = some st := hrun
      injection h0 with h0
      rw [← h0]
      exact hinv
  | cons op rest ih =>
      rw [runFrom_cons] at hrun
      cases hstep : step st0 op with
      | none =>
          rw [hstep] at hrun
          cases hrun
      | some st1 =>
          rw [hstep] at hrun
          have hrun1 : runFrom st1 rest = some st := hrun
          have hdk0 : DK st0 := hdks 0 st0 rfl
          have hdk1 : DK st1 := by
            refine hdks 1 st1 ?_
            have h1 : runFrom st0 ((op :: rest).take 1) = step st0 op := by
              show (step st0 op).bind (fun s1 => runFrom s1 []) = step st0 op
              cases step st0 op <;> rfl
            rw [h1, hstep]
          have hinv1 : Inv st1 := by
            cases op with
            | add i => exact addInstance_inv hinv hdk0 hstep hdk1
            | remove nm s2 d2 => exact removeInstance_inv hinv hdk0 hstep
          refine ih st1 hinv1 ?_ hrun1
          intro m stn h
          refine hdks (m + 1) stn ?_
          have h2 : runFrom st0 ((op :: rest).take (m + 1)) =
              (step st0 op).bind (fun s1 => runFrom s1 (rest.take m)) := rfl
          rw [h2, hstep]
          exact h

theorem statesOK_dk {ops : List Op} (hok : statesOK ops = true) :
    ∀ m stn, run (ops.take m) = some stn → DK stn := by
  intro m stn h
  by_cases hm : m ≤ ops.length
  · have hmem : m ∈ List.range (ops.length + 1) :=
      List.mem_range.mpr (Nat.lt_succ_of_le hm)
    have h2 := (List.all_eq_true.mp hok) m hmem
    rw [h] at h2
    exact of_decide_eq_true h2
  · push_neg at hm
    have hTake : ops.take m = ops := List.take_of_length_le (le_of_lt hm)
    have hmem : ops.length ∈ List.range (ops.length + 1) :=
      List.mem_range.mpr (Nat.lt_succ_self _)
    have h2 := (List.all_eq_true.mp hok) ops.length hmem
    rw [List.take_length] at h2
    rw [hTake] at h
    rw [h] at h2
    exact of_decide_eq_true h2

/-- C1 (amended): for any sequence of `AddInstance`/`RemoveInstance` calls
starting from the empty registry, if every prefix of the run completes
without panicking and every intermediate state keeps the instances' derived
FQDNs pairwise distinct where the claim treats them as distinct (`statesOK`:
the enumeration FQDN per live service, the type-enumeration FQDN per live
domain, and each live instance's instance and target FQDNs are all
different keys), then after every operation the FQDN-to-answerer index
contains exactly the claimed entries: `k ↦ v` is present iff some live
instance justifies it (`IndexExact`).  The original claim, without the
distinctness hypothesis, is false: a second instance whose target FQDN
collides with an earlier instance's overwrites that instance's target
entry (see the counterexample). -/
theorem c1_registry_index_exact (ops : List Op) (st : Registry)
    (hok : statesOK ops = true) (hrun : run ops = some st) : IndexExact st :=
  (runFrom_inv ops emptyRegistry inv_empty (statesOK_dk hok) st hrun).2

/-- Instance `a` with target host `h1`. -/
def c1a : Instance :=
  ⟨"a".toList, "_http._tcp".toList, "local.".toList, .label "h1".toList,
    80, [], 10, 1, 0⟩

/-- Instance `b` of the same service, sharing target host `h1`. -/
def c1b : Instance :=
  ⟨"b".toList, "_http._tcp".toList, "local.".toList, .label "h1".toList,
    80, [], 10, 1, 0⟩

/-- Instance `a` with its own target host `h2`. -/
def c1w : Instance :=
  ⟨"a".toList, "_http._tcp".toList, "local.".toList, .label "h2".toList,
    80, [], 10, 1, 0⟩

/-- The registry after adding the two target-sharing instances. -/
def c1st2 : Registry := (run [Op.add c1a, Op.add c1b]).getD emptyRegistry

def c1dom : DomainM := (mget c1st2.domains "local.".toList).getD ⟨[], []⟩

def c1svc : ServiceM := (mget c1dom.services "_http._tcp".toList).getD ⟨[], [], []⟩

/-- C1, counterexample to the unamended claim: adding two valid instances
of one service that share the target host `h1.local.` panics nowhere, yet
the resulting index is wrong: instance `a` is live, so the claim expects
`h1.local. ↦ target-answerer(a)`, but the second `AddInstance` overwrote
that entry with `target-answerer(b)`. -/
theorem c1_counterexample :
    run [Op.add c1a, Op.add c1b] = some c1st2 ∧ ¬ IndexExact c1st2 := by
  refine ⟨by decide, fun hix => ?_⟩
  have hexp : Expected c1st2 "h1.local.".toList (.target c1a) :=
    ⟨"local.".toList, c1dom, "_http._tcp".toList, c1svc, "a".toList, c1a,
      by decide, by decide, by decide,
      Or.inr (Or.inr (Or.inr ⟨by decide, rfl⟩))⟩
  have hcontra := (hix "h1.local.".toList (.target c1a)).mpr hexp
  have hne : mget c1st2.answerers "h1.local.".toList ≠ some (.target c1a) := by
    decide
  exact hne hcontra

/-- The registry after the witness run. -/
def c1wst : Registry := (run [Op.add c1a, Op.add c1w]).getD emptyRegistry

theorem c1_registry_witness :
    statesOK [Op.add c1a, Op.add c1w] = true ∧ IndexExact c1wst :=
  ⟨by decide,
    c1_registry_index_exact [Op.add c1a, Op.add c1w] c1wst (by decide) (by decide)⟩

end Dissolve
